import Mathlib

/-!
Verification development for `datapipe_core.py`: a shallow embedding of the
column-normalization / KPI logic and of the Google-Sheets-backed invoice
store (read, validate, upsert, export, folio sync), together with theorems
settling the specification claims.

Modelling conventions:
* pandas `NaN` cells are modelled as an explicit missing marker;
* machine floats are modelled by rationals extended with `+inf`, `-inf`
  and `NaN` where IEEE division/aggregation matters;
* Python `str.strip()` / `str.lower()` are modelled character-wise for the
  ASCII range (all column names and aliases in the program are ASCII).
-/

/-- Uppercase/lowercase ASCII pairs used to model Python `str.lower()`. -/

def ulPairs : List (Char × Char) :=
  [('A','a'),('B','b'),('C','c'),('D','d'),('E','e'),('F','f'),('G','g'),
   ('H','h'),('I','i'),('J','j'),('K','k'),('L','l'),('M','m'),('N','n'),
   ('O','o'),('P','p'),('Q','q'),('R','r'),('S','s'),('T','t'),('U','u'),
   ('V','v'),('W','w'),('X','x'),('Y','y'),('Z','z')]

/-- Model of Python `str.lower()` on a single (ASCII) character. -/

def lowChar (c : Char) : Char :=
  match ulPairs.find? (fun p => p.1 == c) with
  | some p => p.2
  | none => c

/-- Model of Python whitespace (the characters stripped by `str.strip()`). -/

def isSpaceC (c : Char) : Bool :=
  c == ' ' || c == '\t' || c == '\n' || c == '\r' || c == '\x0b' || c == '\x0c'

/-- Model of Python `str.strip()` at the character-list level. -/

def stripL (l : List Char) : List Char :=
  ((l.dropWhile isSpaceC).reverse.dropWhile isSpaceC).reverse

/-- Model of Python `s.strip().lower()` (as used by `_norm_name`). -/

def pyStripLower (s : String) : String :=
  String.mk ((stripL s.data).map lowChar)

/-- Model of Python `s.strip()`. -/

def pyStrip (s : String) : String :=
  String.mk (stripL s.data)

/-- The `_CANON` alias dictionary of `datapipe_core.py` (iteration order preserved). -/

def CANON : List (String × List String) :=
  [("precio_venta", ["precio_venta","precio","venta","pv","precio final","monto","importe"]),
   ("costo_proveedor", ["costo_proveedor","costo","cp","costo unitario","compra"]),
   ("iva", ["iva","impuesto","vat"]),
   ("total", ["total","importe_total","monto_total"])]

/-- The four canonical numeric column names, in the order the code iterates them. -/

def canonKeys : List String := ["precio_venta","costo_proveedor","iva","total"]

/-- Alias lookup inside `_norm_name`: the first canonical entry whose key or
alias list matches the normalized label. -/

def normFind (t : String) : Option (String × List String) :=
  CANON.find? (fun kv => t == kv.1 || kv.2.contains t)

/-- Embedding of `_norm_name`: strip/lowercase, then return the canonical key if
the result equals the key or one of its aliases, else the normalized label. -/

def normName (s : String) : String :=
  match normFind (pyStripLower s) with
  | some kv => kv.1
  | none => pyStripLower s

/-- A table cell: a raw string, a number (floats modelled as rationals), or
pandas `NaN` (also covering missing values). -/

inductive Cell where
  | str (s : String)
  | num (q : ℚ)
  | nan
deriving DecidableEq

/-- A table in the normalizer/KPI part: ordered column labels and positional
rows (a pandas DataFrame). -/

structure NTable where
  cols : List String
  rows : List (List Cell)
deriving DecidableEq

/-- Index of the first column with the given label (pandas column lookup;
all lookups in the embedded code are on non-duplicated labels). -/

def idxOf? (c : String) : List String → Option Nat
  | [] => none
  | x :: xs => if x = c then some 0 else (idxOf? c xs).map (· + 1)

/-- The cell of a row at a column position (`NaN` when out of range). -/

def getCell (r : List Cell) (i : Nat) : Cell := r.getD i Cell.nan

/-- Value of some decimal digits (most significant first). -/

def digitsVal (l : List Char) : Nat := l.foldl (fun n c => n * 10 + (c.toNat - 48)) 0

def allDigits (l : List Char) : Bool := l.all (fun c => 48 ≤ c.toNat && c.toNat ≤ 57)

/-- Split a character list at each dot. -/

def splitDot : List Char → List (List Char)
  | [] => [[]]
  | c :: rest =>
    if c = '.' then [] :: splitDot rest
    else match splitDot rest with
      | g :: gs => (c :: g) :: gs
      | [] => [[c]]

/-- Numeric parsing as performed by `pd.to_numeric` on a string cell:
optional sign, decimal digits with an optional fractional part.  (Exponent
and infinity spellings are not modelled; no claim depends on them.) -/

def parseRat (s : String) : Option ℚ :=
  let l := stripL s.data
  let sg : ℚ × List Char :=
    match l with
    | c :: rest =>
        if c = '-' then (-1, rest) else if c = '+' then (1, rest) else (1, c :: rest)
    | [] => (1, [])
  match splitDot sg.2 with
  | [a] =>
      if a ≠ [] && allDigits a then some (sg.1 * (digitsVal a : ℚ)) else none
  | [a, b] =>
      if (a ≠ [] || b ≠ []) && allDigits a && allDigits b then
        some (sg.1 * ((digitsVal a : ℚ) + (digitsVal b : ℚ) / ((10 : ℚ) ^ b.length)))
      else none
  | _ => none

/-- Embedding of `pd.to_numeric(col, errors="coerce")` on one cell: numbers
pass through, strings are parsed, anything unparsable becomes `NaN`. -/

def toNumeric : Cell → Cell
  | .num q => .num q
  | .nan => .nan
  | .str s =>
      match parseRat s with
      | some q => .num q
      | none => .nan

/-- Coerce one canonical column (`df[col] = pd.to_numeric(df[col], ...)`). -/

def coerceCol (t : NTable) (c : String) : NTable :=
  match idxOf? c t.cols with
  | none => t
  | some i => ⟨t.cols, t.rows.map (fun r => r.set i (toNumeric (getCell r i)))⟩

/-- pandas numeric addition on cells (`NaN` propagates). -/

def cellAdd : Cell → Cell → Cell
  | .num a, .num b => .num (a + b)
  | _, _ => .nan

/-- pandas numeric subtraction on cells (`NaN` propagates). -/

def cellSub : Cell → Cell → Cell
  | .num a, .num b => .num (a - b)
  | _, _ => .nan

/-- Append a derived column `name := f (col a) (col b)` (no-op if either
source column is absent; the callers check presence first). -/

def deriveCol (t : NTable) (name : String) (f : Cell → Cell → Cell)
    (a b : String) : NTable :=
  match idxOf? a t.cols, idxOf? b t.cols with
  | some i, some j =>
      ⟨t.cols ++ [name], t.rows.map (fun r => r ++ [f (getCell r i) (getCell r j)])⟩
  | _, _ => t

/-- pandas `df.empty` (no rows or no columns). -/

def isEmptyN (t : NTable) : Bool := t.rows.isEmpty || t.cols.isEmpty

/-- The renaming step of `normalize_columns`. -/

def renameStage (t : NTable) : NTable := ⟨t.cols.map normName, t.rows⟩

/-- True when some canonical column label occurs at least twice after renaming;
`pd.to_numeric(df[col])` then receives a DataFrame and raises. -/

def dupCanon (t : NTable) : Bool := canonKeys.any (fun c => 2 ≤ t.cols.count c)

/-- The numeric-coercion step of `normalize_columns`. -/

def coerceStage (t : NTable) : NTable := canonKeys.foldl coerceCol t

/-- The `total := precio_venta + iva` derivation step. -/

def totalStage (t : NTable) : NTable :=
  if !(t.cols.contains "total") && t.cols.contains "precio_venta" &&
      t.cols.contains "iva" then
    deriveCol t "total" cellAdd "precio_venta" "iva"
  else t

/-- The `iva := total - precio_venta` derivation step. -/

def ivaStage (t : NTable) : NTable :=
  if !(t.cols.contains "iva") && t.cols.contains "precio_venta" &&
      t.cols.contains "total" then
    deriveCol t "iva" cellSub "total" "precio_venta"
  else t

/-- Embedding of `normalize_columns`: empty tables are returned unchanged;
otherwise rename, coerce the four canonical columns (raising on duplicated
canonical labels), then run the two derivations. -/

def normalizeColumns (t : NTable) : Except String NTable :=
  if isEmptyN t then .ok t
  else
    let t1 := renameStage t
    if dupCanon t1 then .error "columnas canonicas duplicadas"
    else .ok (ivaStage (totalStage (coerceStage t1)))

/-- Rows all have exactly one cell per column (DataFrames are rectangular). -/

def WF (t : NTable) : Prop := ∀ r ∈ t.rows, r.length = t.cols.length

/-- Cells in the column labelled `c` are fixed points of `toNumeric` (they have
already been coerced, or derived from coerced values). -/

def NumFixedAt (t : NTable) (c : String) : Prop :=
  ∀ i, idxOf? c t.cols = some i → ∀ r ∈ t.rows, toNumeric (getCell r i) = getCell r i

/-- The list of values of the (first) column labelled `c`. -/

def colVals (t : NTable) (c : String) : List Cell :=
  match idxOf? c t.cols with
  | some i => t.rows.map (fun r => getCell r i)
  | none => []

instance instDecEqExcept {ε α : Type} [DecidableEq ε] [DecidableEq α] :
    DecidableEq (Except ε α) := fun a b =>
  match a, b with
  | .ok x, .ok y =>
      match decEq x y with
      | isTrue h => isTrue (by rw [h])
      | isFalse h => isFalse (fun hh => h (Except.ok.inj hh))
  | .error x, .error y =>
      match decEq x y with
      | isTrue h => isTrue (by rw [h])
      | isFalse h => isFalse (fun hh => h (Except.error.inj hh))
  | .ok _, .error _ => isFalse (fun hh => Except.noConfusion hh)
  | .error _, .ok _ => isFalse (fun hh => Except.noConfusion hh)

/-- Input table for the C7 witness: aliased columns, one row. -/

def c7tW : NTable := ⟨["pv", "IVA"], [[Cell.num 100, Cell.num 16]]⟩

/-- Normalized output for the C7 witness. -/

def c7uW : NTable :=
  ⟨["precio_venta", "iva", "total"], [[Cell.num 100, Cell.num 16, Cell.num 116]]⟩

/-- Input table for the C8 witness (an alias with surrounding spaces and
mixed case; all three canonical financial columns present). -/

def c8tW : NTable := ⟨[" Precio ", "iva", "total"], [[Cell.num 5, Cell.num 1, Cell.num 6]]⟩

/-- Normalized output for the C8 witness. -/

def c8uW : NTable :=
  ⟨["precio_venta", "iva", "total"], [[Cell.num 5, Cell.num 1, Cell.num 6]]⟩

/-- IEEE-style extended value produced by float aggregation: a finite value
(idealized as a rational), positive/negative infinity, or `NaN`. -/

inductive EF where
  | fin (q : ℚ)
  | pinf
  | ninf
  | nan
deriving DecidableEq

/-- Float addition on extended values (as performed by a pandas sum). -/

def efAdd : EF → EF → EF
  | .nan, _ => .nan
  | .fin _, .nan => .nan
  | .pinf, .nan => .nan
  | .ninf, .nan => .nan
  | .fin a, .fin b => .fin (a + b)
  | .fin _, .pinf => .pinf
  | .fin _, .ninf => .ninf
  | .pinf, .fin _ => .pinf
  | .ninf, .fin _ => .ninf
  | .pinf, .pinf => .pinf
  | .ninf, .ninf => .ninf
  | .pinf, .ninf => .nan
  | .ninf, .pinf => .nan

/-- Division of an extended value by a (positive) count. -/

def efDivNat (e : EF) (n : Nat) : EF :=
  if n = 0 then .nan
  else
    match e with
    | .fin q => .fin (q / (n : ℚ))
    | .pinf => .pinf
    | .ninf => .ninf
    | .nan => .nan

/-- Mean of a list of extended values (no skipping; the caller has already
replaced `NaN` entries). -/

def efMean (l : List EF) : EF := efDivNat (l.foldl efAdd (.fin 0)) l.length

/-- Multiplication by 100 (the `* 100` after the mean). -/

def efMul100 : EF → EF
  | .fin q => .fin (q * 100)
  | .pinf => .pinf
  | .ninf => .ninf
  | .nan => .nan

/-- IEEE division of two cells (`iva / precio_venta`): division by zero gives
a signed infinity (or `NaN` for `0/0`); a missing operand gives `NaN`.
Non-numeric (string) cells would make pandas raise on an object column; the
model maps them to `NaN`, and theorems about `kpis` carry a numeric-column
hypothesis to stay within the faithful cases. -/

def cellDivEF : Cell → Cell → EF
  | .num a, .num b =>
      if b = 0 then (if 0 < a then .pinf else if a < 0 then .ninf else .nan)
      else .fin (a / b)
  | _, _ => .nan

/-- The `.replace([pd.NA, pd.NaT], 0)` step: `NaN` becomes 0, everything else
(including infinities) is kept. -/

def replaceNan0 : EF → EF
  | .nan => .fin 0
  | e => e

/-- pandas `Series.mean()` with default `skipna`: the mean of the numeric
entries, `NaN` if there are none. -/

def meanSkipNa (l : List Cell) : EF :=
  let vs := l.filterMap (fun c => match c with | Cell.num q => some q | _ => none)
  if vs.length = 0 then .nan else .fin (vs.sum / (vs.length : ℚ))

/-- pandas `df.get(c)`: the column as a list of cells, or `none` if absent. -/

def dfGet (t : NTable) (c : String) : Option (List Cell) :=
  (idxOf? c t.cols).map (fun i => t.rows.map (fun r => getCell r i))

/-- The dictionary returned by `kpis` (each metric `None`-able). -/

structure KpisR where
  ticket : Option EF
  margen : Option EF
  ivaPct : Option EF
deriving DecidableEq

/-- True unless the cell is a raw string. -/

def isNumOrNan : Cell → Bool
  | .str _ => false
  | _ => true

/-- The non-null branch of `kpis`: `{}` (modelled as `none`) for an empty
table; otherwise each metric is computed when its columns exist, else `None`. -/

def kpisTable (t : NTable) : Option KpisR :=
  if isEmptyN t then none
  else
    some ⟨(dfGet t "total").map meanSkipNa,
      (match dfGet t "precio_venta", dfGet t "costo_proveedor" with
        | some p, some c => some (List.zipWith cellSub p c)
        | _, _ => none).map meanSkipNa,
      match dfGet t "iva", dfGet t "precio_venta" with
      | some i, some p =>
          some (efMul100 (efMean ((List.zipWith cellDivEF i p).map replaceNan0)))
      | _, _ => none⟩

/-- Embedding of `kpis` (`None` input included). -/

def kpis (t? : Option NTable) : Option KpisR :=
  match t? with
  | none => none
  | some t => kpisTable t

/-- Modelled from the claim (C2): the mean of `(iva / precio_venta) * 100`
over the rows, where a row whose ratio is undefined (zero or missing
`precio_venta`, or missing `iva`) contributes 0. -/

def ivaPctClaimSpec (t : NTable) : Option ℚ :=
  match idxOf? "iva" t.cols, idxOf? "precio_venta" t.cols with
  | some i, some j =>
      if t.rows.length = 0 then none
      else
        some ((t.rows.map (fun r =>
          match getCell r i, getCell r j with
          | Cell.num a, Cell.num b => if b = 0 then (0 : ℚ) else a / b * 100
          | _, _ => 0)).sum / (t.rows.length : ℚ))
  | _, _ => none

/-- The amended description of the code's `iva_pct_prom` policy: 100 times
the mean over all rows of a per-row value that is 0 when either operand is
missing or both are zero, `iva / precio_venta` when `precio_venta` is
nonzero, and a signed infinity when `precio_venta` is zero and `iva` is not. -/

def ivaPctAmendedSpec (t : NTable) : Option EF :=
  match idxOf? "iva" t.cols, idxOf? "precio_venta" t.cols with
  | some i, some j =>
      some (efMul100 (efMean (t.rows.map (fun r =>
        match getCell r i, getCell r j with
        | Cell.num a, Cell.num b =>
            if b = 0 then
              (if 0 < a then EF.pinf else if a < 0 then EF.ninf else EF.fin 0)
            else EF.fin (a / b)
        | _, _ => EF.fin 0))))
  | _, _ => none

/-- Concrete table for the C2 counterexample and witness: one row where
`precio_venta` is 0 and `iva` is 16, one ordinary row. -/

def c2tW : NTable :=
  ⟨["iva", "precio_venta"], [[Cell.num 16, Cell.num 0], [Cell.num 16, Cell.num 100]]⟩

/-- A cell of the invoice-store tables: a string value, or `NaN`/missing
(`none`).  (The monetary default fill `0` of `facturas_read` is modelled as
the string "0"; no claim inspects monetary cells.) -/

abbrev SCell := Option String

/-- A row of the invoice-store tables, as an association list from column
name to cell; a missing key is a missing (`NaN`) cell. -/

abbrev SRow := List (String × SCell)

/-- A table of the invoice-store part (column order plus rows). -/

structure STable where
  cols : List String
  rows : List SRow
deriving DecidableEq

/-- The cell of a row under a column name (first matching key; `NaN` when
the key is absent). -/

def getC : SRow → String → SCell
  | [], _ => none
  | p :: ps, c => if p.1 = c then p.2 else getC ps c

/-- Set the cell under a column name (replace the first matching key, or
append). -/

def setC : SRow → String → SCell → SRow
  | [], c, v => [(c, v)]
  | p :: ps, c, v => if p.1 = c then (c, v) :: ps else p :: setC ps c v

/-- Python `str()` of a cell: `NaN` stringifies to the text "nan". -/

def strOfCell : SCell → String
  | none => "nan"
  | some s => s

/-- pandas `df.empty` for store tables. -/

def isEmptyS (t : STable) : Bool := t.rows.isEmpty || t.cols.isEmpty

/-- The `base_cols` of `facturas_read`, in order. -/

def baseCols : List String :=
  ["ID","FECHA","PACIENTE","HOSPITAL","PROVEEDOR","CATEGORIA","CONCEPTO",
   "COSTO_MXN","PRECIO_MXN","IVA_16","TOTAL_MXN","ESTATUS","FOLIO"]

/-- The four monetary columns default-filled with `0` by `facturas_read`. -/

def monetaryCols : List String := ["COSTO_MXN","PRECIO_MXN","IVA_16","TOTAL_MXN"]

/-- `REQUIRED_COLS` of the validator. -/

def REQUIRED_COLS : List String :=
  ["ID","FECHA","PACIENTE","HOSPITAL","PROVEEDOR","CATEGORIA","CONCEPTO"]

/-- Embedding of `gs_write`: an empty frame clears the sheet; otherwise the
sheet holds the frame with `NaN` cells serialized as empty strings
(`df.fillna("")`), one cell per column in column order. -/

def gsWrite (df : STable) : STable :=
  if isEmptyS df then ⟨[], []⟩
  else ⟨df.cols, df.rows.map (fun r => df.cols.map (fun c => (c, some ((getC r c).getD ""))))⟩

/-- Embedding of `facturas_read`: read the sheet, add every missing base
column filled with `0` (monetary) or `""`, then select the base columns in
their canonical order. -/

def facturasRead (sheet : STable) : STable :=
  let d := baseCols.foldl (fun acc c =>
    if acc.cols.contains c then acc
    else ⟨acc.cols ++ [c], acc.rows.map (fun r =>
      setC r c (some (if monetaryCols.contains c then "0" else "")))⟩) sheet
  ⟨baseCols, d.rows.map (fun r => baseCols.map (fun c => (c, getC r c)))⟩

/-- The per-row invalidity test of `validate_facturas`: the stringified,
trimmed `CONCEPTO` is non-empty and some required field's cell is `NaN`. -/

def invalidRow (r : SRow) : Bool :=
  (pyStrip (strOfCell (getC r "CONCEPTO")) != "") &&
    (REQUIRED_COLS.any (fun c => (getC r c).isNone))

/-- Embedding of `validate_facturas`: `(True, df)` for an empty frame;
`ValueError` listing the missing required columns when some are absent;
otherwise the invalid-row subset and its emptiness flag. -/

def validateFacturas (t : STable) : Except (List String) (Bool × STable) :=
  if isEmptyS t then .ok (true, t)
  else if (REQUIRED_COLS.filter (fun c => !(t.cols.contains c))).isEmpty then
    .ok ((t.rows.filter invalidRow).isEmpty, ⟨t.cols, t.rows.filter invalidRow⟩)
  else .error (REQUIRED_COLS.filter (fun c => !(t.cols.contains c)))

/-- A caller-supplied upsert row (a Python dict; later bindings win). -/

abbrev InRow := List (String × String)

/-- Python `dict.get` on an input row (the last binding of the key). -/

def inGet : InRow → String → Option String
  | [], _ => none
  | p :: ps, c =>
      match inGet ps c with
      | some v => some v
      | none => if p.1 = c then some p.2 else none

/-- `str(r.get("ID","")).strip()` of an input row. -/

def ridOf (r : InRow) : String := pyStrip ((inGet r "ID").getD "")

/-- Lookup in the `idx` dictionary of `facturas_upsert`. -/

def idxGet : List (String × Nat) → String → Option Nat
  | [], _ => none
  | p :: ps, c => if p.1 = c then some p.2 else idxGet ps c

/-- Insert/overwrite in the `idx` dictionary. -/

def idxSet : List (String × Nat) → String → Nat → List (String × Nat)
  | [], c, v => [(c, v)]
  | p :: ps, c, v => if p.1 = c then (c, v) :: ps else p :: idxSet ps c v

/-- The initial `idx` dictionary: position of each row whose raw stringified
`ID` is the key, for rows with a non-`NaN`, non-blank `ID` (note: the key is
the unstripped `str(r["ID"])`). -/

def buildIdx (df : STable) : List (String × Nat) :=
  df.rows.enum.foldl (fun m p =>
    if (getC p.2 "ID").isSome && (pyStrip (strOfCell (getC p.2 "ID")) != "") then
      idxSet m (strOfCell (getC p.2 "ID")) p.1
    else m) []

/-- The update loop of `facturas_upsert` on one existing row: each input
field whose key is a table column overwrites that cell. -/

def updRow (cols : List String) : SRow → InRow → SRow
  | row, [] => row
  | row, kv :: rest =>
      updRow cols (if cols.contains kv.1 then setC row kv.1 (some kv.2) else row) rest

/-- The appended row of `facturas_upsert`: every table column takes the
input value, defaulting to the empty string. -/

def newRowOf (cols : List String) (r : InRow) : SRow :=
  cols.map (fun c => (c, some ((inGet r c).getD "")))

/-- One iteration of the `for r in rows` loop of `facturas_upsert`. -/

def applyRow (st : STable × List (String × Nat)) (r : InRow) :
    STable × List (String × Nat) :=
  if ridOf r = "" then st
  else
    match idxGet st.2 (ridOf r) with
    | some i =>
        (⟨st.1.cols, st.1.rows.set i (updRow st.1.cols (st.1.rows.getD i []) r)⟩, st.2)
    | none =>
        (⟨st.1.cols, st.1.rows ++ [newRowOf st.1.cols r]⟩,
          idxSet st.2 (ridOf r) st.1.rows.length)

/-- The `if "ID" not in df.columns: df["ID"] = ""` guard (dead in practice,
since `facturas_read` always provides `ID`). -/

def ensureID (t : STable) : STable :=
  if t.cols.contains "ID" then t
  else ⟨t.cols ++ ["ID"], t.rows.map (fun r => setC r "ID" (some ""))⟩

/-- The error raised by `facturas_upsert` (both cases are `ValueError` in
Python; the invalid case carries the offending rows). -/

inductive UpsertErr where
  | schema (cs : List String)
  | invalid (t : STable)
deriving DecidableEq

/-- The two persisted sheets (`FACT_SHEET` and `CONT_SHEET`). -/

structure Sheets where
  fact : STable
  cont : STable
deriving DecidableEq

/-- The state entering the upsert loop: the read table and its `idx`. -/

def upsertInit (s : Sheets) : STable × List (String × Nat) :=
  (ensureID (facturasRead s.fact), buildIdx (ensureID (facturasRead s.fact)))

/-- Embedding of `facturas_upsert`: read, apply all rows, validate, and only
then write; validation failure raises and performs no write. -/

def facturasUpsert (s : Sheets) (rows : List InRow) : Sheets × Except UpsertErr STable :=
  match validateFacturas (rows.foldl applyRow (upsertInit s)).1 with
  | .error cs => (s, .error (.schema cs))
  | .ok p =>
      if p.1 then
        (⟨gsWrite (rows.foldl applyRow (upsertInit s)).1, s.cont⟩,
          .ok (rows.foldl applyRow (upsertInit s)).1)
      else (s, .error (.invalid p.2))

/-- The filter `df[df["ESTATUS"].fillna("").eq("Por enviar")]` of
`export_por_enviar_to_contador`. -/

def exportFilter (df : STable) : STable :=
  ⟨df.cols, df.rows.filter (fun r => (getC r "ESTATUS").getD "" == "Por enviar")⟩

/-- The line `out["FOLIO"] = out.get("FOLIO","")`: a no-op when the `FOLIO`
column exists; otherwise (dead in practice) a whole column of `""`. -/

def exportFolioFix (out : STable) : STable :=
  if out.cols.contains "FOLIO" then out
  else ⟨out.cols ++ ["FOLIO"], out.rows.map (fun r => setC r "FOLIO" (some ""))⟩

/-- Embedding of `export_por_enviar_to_contador`: filter rows whose `ESTATUS`
(`NaN` treated as `""`) equals "Por enviar" exactly; an empty result is
returned without writing; otherwise the `FOLIO` fix-up is applied and the
accountant sheet is overwritten with the result. -/

def exportPorEnviar (s : Sheets) : Sheets × STable :=
  if isEmptyS (exportFilter (facturasRead s.fact)) then
    (s, exportFilter (facturasRead s.fact))
  else
    (⟨s.fact, gsWrite (exportFolioFix (exportFilter (facturasRead s.fact)))⟩,
      exportFolioFix (exportFilter (facturasRead s.fact)))

/-- The per-row update of `sync_folios_from_contador`.  A row with a usable
`ID` looks itself up in the accountant table: with exactly one match the
looked-up `FOLIO`/`ESTATUS` overwrite the row's cells only when non-`NaN`
and non-blank after strip.  With two or more matches, pandas
`cont_map.loc[id, ["FOLIO","ESTATUS"]]` returns a DataFrame and the tuple
unpacking `folio, est = ...` binds the column labels themselves, so the
literal strings "FOLIO" and "ESTATUS" (non-blank) are written into the row. -/

def syncUpd (cont : STable) (r : SRow) : SRow :=
  if (getC r "ID").isSome then
    match cont.rows.filter (fun cr => getC cr "ID" == some (strOfCell (getC r "ID"))) with
    | [] => r
    | [m] =>
        if (getC m "ESTATUS").isSome &&
            (pyStrip (strOfCell (getC m "ESTATUS")) != "") then
          setC (if (getC m "FOLIO").isSome &&
              (pyStrip (strOfCell (getC m "FOLIO")) != "") then
            setC r "FOLIO" (getC m "FOLIO") else r) "ESTATUS" (getC m "ESTATUS")
        else
          (if (getC m "FOLIO").isSome &&
              (pyStrip (strOfCell (getC m "FOLIO")) != "") then
            setC r "FOLIO" (getC m "FOLIO") else r)
    | _ => setC (setC r "FOLIO" (some "FOLIO")) "ESTATUS" (some "ESTATUS")
  else r

/-- Embedding of `sync_folios_from_contador`: returns the invoice sheet
unchanged when either sheet is empty; `ValueError` when the accountant sheet
lacks ID/FOLIO/ESTATUS; otherwise updates every invoice row via `syncUpd`
and writes the result back unconditionally. -/

def syncFolios (s : Sheets) : Sheets × Except String STable :=
  if isEmptyS s.fact || isEmptyS s.cont then (s, .ok s.fact)
  else if !(["ID","FOLIO","ESTATUS"].all (fun c => s.cont.cols.contains c)) then
    (s, .error "La hoja del contador debe tener las columnas ID, FOLIO, ESTATUS")
  else
    (⟨gsWrite ⟨s.fact.cols, s.fact.rows.map (syncUpd s.cont)⟩, s.cont⟩,
      .ok ⟨s.fact.cols, s.fact.rows.map (syncUpd s.cont)⟩)

/-- C5 witness row: `CONCEPTO = "servicio"`, `PACIENTE` missing. -/

def c5row1 : SRow := [("ID", some "1"), ("CONCEPTO", some "servicio")]

/-- C5 witness row: `CONCEPTO = ""`, `PACIENTE` missing. -/

def c5row2 : SRow := [("ID", some "2"), ("CONCEPTO", some "")]

/-- C5 witness table over the required columns. -/

def c5tW : STable := ⟨REQUIRED_COLS, [c5row1, c5row2]⟩

/-- C10 witness row: `CONCEPTO` key absent (a `NaN` cell), `PACIENTE`
also missing. -/

def c10row : SRow := [("ID", some "1")]

/-- C10 witness table over the required columns. -/

def c10tW : STable := ⟨REQUIRED_COLS, [c10row]⟩

/-- Existing stored row for the C3 witness. -/

def c3old : SRow :=
  [("ID", some "1"), ("FECHA", some "2024-01-01"), ("PACIENTE", some "Ana"),
   ("HOSPITAL", some "H1"), ("PROVEEDOR", some "P1"), ("CATEGORIA", some "C1"),
   ("CONCEPTO", some "servicio"), ("COSTO_MXN", some "10"), ("PRECIO_MXN", some "20"),
   ("IVA_16", some "3"), ("TOTAL_MXN", some "23"), ("ESTATUS", some "Por enviar"),
   ("FOLIO", some "")]

/-- Input row for the C3 witness (the spec's partial-update example). -/

def c3in : InRow := [("ID", "1"), ("ESTATUS", "Pagada")]

/-- Sheet state for the C6 witness: the stored row has a non-empty
`CONCEPTO` but a missing `PACIENTE` cell. -/

def c6s : Sheets :=
  ⟨⟨["ID", "CONCEPTO", "PACIENTE"], [[("ID", some "9"), ("CONCEPTO", some "x")]]⟩,
   ⟨[], []⟩⟩

/-- The invalid row as it appears after `facturas_read` for the C6 witness. -/

def c6row : SRow :=
  [("ID", some "9"), ("FECHA", some ""), ("PACIENTE", none),
   ("HOSPITAL", some ""), ("PROVEEDOR", some ""), ("CATEGORIA", some ""),
   ("CONCEPTO", some "x"), ("COSTO_MXN", some "0"), ("PRECIO_MXN", some "0"),
   ("IVA_16", some "0"), ("TOTAL_MXN", some "0"), ("ESTATUS", some ""),
   ("FOLIO", some "")]

/-- Sheet state for the C1 counterexample: one row with status "Por enviar"
and an already-assigned folio. -/

def c1s : Sheets :=
  ⟨⟨["ID", "ESTATUS", "FOLIO"],
    [[("ID", some "1"), ("ESTATUS", some "Por enviar"), ("FOLIO", some "F123")]]⟩,
   ⟨[], []⟩⟩

/-- Accountant sheet with a duplicated ID "1" whose FOLIO/ESTATUS entries are
all blank. -/

def c4cont : STable :=
  ⟨["ID", "FOLIO", "ESTATUS"],
   [[("ID", some "1"), ("FOLIO", some ""), ("ESTATUS", some "")],
    [("ID", some "1"), ("FOLIO", some ""), ("ESTATUS", some "")]]⟩

/-- Invoice row with ID "1" and a non-blank stored FOLIO. -/

def c4r : SRow := [("ID", some "1"), ("FOLIO", some "F1"), ("ESTATUS", some "Por enviar")]

/-- Sheets pair for the C4 witness: one invoice row, a unique accountant
match carrying FOLIO "F9" and ESTATUS "Pagada". -/

def c4sW : Sheets :=
  ⟨⟨baseCols, [[("ID", some "1"), ("FOLIO", some "F1"), ("ESTATUS", some "Por enviar")]]⟩,
   ⟨["ID", "FOLIO", "ESTATUS"],
    [[("ID", some "1"), ("FOLIO", some "F9"), ("ESTATUS", some "Pagada")]]⟩⟩

/-- The invoice row of the C4 witness. -/

def c4rW : SRow := [("ID", some "1"), ("FOLIO", some "F1"), ("ESTATUS", some "Por enviar")]

/-- The unique accountant match of the C4 witness. -/

def c4mW : SRow := [("ID", some "1"), ("FOLIO", some "F9"), ("ESTATUS", some "Pagada")]

lemma lowChar_pair_fix : ∀ p ∈ ulPairs, lowChar p.2 = p.2 := by decide

lemma lowChar_idem (c : Char) : lowChar (lowChar c) = lowChar c := by
  cases h : ulPairs.find? (fun p => p.1 == c) with
  | none => simp [lowChar, h]
  | some p =>
      have hm : p ∈ ulPairs := List.mem_of_find?_eq_some h
      have hc : lowChar c = p.2 := by simp [lowChar, h]
      rw [hc]
      exact lowChar_pair_fix p hm

lemma isSpaceC_pairs : ∀ p ∈ ulPairs, isSpaceC p.1 = false ∧ isSpaceC p.2 = false := by
  decide

lemma isSpaceC_lowChar (c : Char) : isSpaceC (lowChar c) = isSpaceC c := by
  cases h : ulPairs.find? (fun p => p.1 == c) with
  | none => simp [lowChar, h]
  | some p =>
      have hm : p ∈ ulPairs := List.mem_of_find?_eq_some h
      have hpc : p.1 == c := by
        have := List.find?_some h
        simpa using this
      have hpc' : p.1 = c := by simpa using hpc
      have hsp := isSpaceC_pairs p hm
      have hlow : lowChar c = p.2 := by simp [lowChar, h]
      rw [hlow, hsp.2, ← hpc', hsp.1]

lemma dropWhile_head_false {α : Type} (p : α → Bool) :
    ∀ (l : List α) (a : α) (t : List α), l.dropWhile p = a :: t → p a = false := by
  intro l
  induction l with
  | nil => intro a t h; simp [List.dropWhile] at h
  | cons b bs ih =>
      intro a t h
      by_cases hb : p b = true
      · rw [List.dropWhile_cons_of_pos hb] at h
        exact ih a t h
      · rw [List.dropWhile_cons_of_neg hb] at h
        cases h
        simpa using hb

lemma dropWhile_idem {α : Type} (p : α → Bool) (l : List α) :
    (l.dropWhile p).dropWhile p = l.dropWhile p := by
  cases h : l.dropWhile p with
  | nil => simp
  | cons a t =>
      have ha := dropWhile_head_false p l a t h
      simp [List.dropWhile_cons, ha]

lemma dropWhile_suffix {α : Type} (p : α → Bool) (l : List α) :
    l.dropWhile p <:+ l := by
  induction l with
  | nil => simp
  | cons a t ih =>
      by_cases hb : p a = true
      · rw [List.dropWhile_cons_of_pos hb]
        exact ih.trans (List.suffix_cons a t)
      · rw [List.dropWhile_cons_of_neg hb]

lemma dropWhile_map {α : Type} (p : α → Bool) (f : α → α)
    (hp : ∀ c, p (f c) = p c) (l : List α) :
    (l.map f).dropWhile p = (l.dropWhile p).map f := by
  induction l with
  | nil => simp
  | cons a t ih =>
      by_cases hb : p a = true
      · rw [List.map_cons, List.dropWhile_cons_of_pos (by rw [hp]; exact hb),
            List.dropWhile_cons_of_pos hb]
        exact ih
      · rw [List.map_cons, List.dropWhile_cons_of_neg (by rw [hp]; exact hb),
            List.dropWhile_cons_of_neg hb, List.map_cons]

lemma stripL_prefix_drop (l : List Char) :
    stripL l <+: l.dropWhile isSpaceC := by
  have h1 : (l.dropWhile isSpaceC).reverse.dropWhile isSpaceC <:+
      (l.dropWhile isSpaceC).reverse :=
    dropWhile_suffix isSpaceC (l.dropWhile isSpaceC).reverse
  have h2 := List.reverse_prefix.mpr h1
  rw [List.reverse_reverse] at h2
  exact h2

lemma stripL_head_false (l : List Char) (a : Char) (t : List Char)
    (h : stripL l = a :: t) : isSpaceC a = false := by
  have hpre := stripL_prefix_drop l
  rw [h] at hpre
  obtain ⟨r, hr⟩ := hpre
  cases hd : l.dropWhile isSpaceC with
  | nil => rw [hd] at hr; simp at hr
  | cons b bs =>
      rw [hd] at hr
      have hb : b = a := by
        have := congrArg List.head? hr
        simpa using this.symm
      have := dropWhile_head_false isSpaceC l b bs hd
      rwa [hb] at this

lemma dropWhile_stripL (l : List Char) :
    (stripL l).dropWhile isSpaceC = stripL l := by
  cases h : stripL l with
  | nil => simp
  | cons a t =>
      have ha := stripL_head_false l a t h
      simp [List.dropWhile_cons, ha]

lemma stripL_idem (l : List Char) : stripL (stripL l) = stripL l := by
  show (((stripL l).dropWhile isSpaceC).reverse.dropWhile isSpaceC).reverse = stripL l
  rw [dropWhile_stripL]
  show ((((l.dropWhile isSpaceC).reverse.dropWhile isSpaceC).reverse.reverse).dropWhile
      isSpaceC).reverse = stripL l
  rw [List.reverse_reverse, dropWhile_idem]
  rfl

lemma stripL_map_lowChar (l : List Char) :
    stripL ((stripL l).map lowChar) = (stripL l).map lowChar := by
  have hcomm : ∀ x : List Char, stripL (x.map lowChar) = (stripL x).map lowChar := by
    intro x
    unfold stripL
    rw [dropWhile_map isSpaceC lowChar isSpaceC_lowChar,
        ← List.map_reverse, dropWhile_map isSpaceC lowChar isSpaceC_lowChar,
        ← List.map_reverse]
  rw [hcomm, stripL_idem]

lemma pyStripLower_idem (s : String) :
    pyStripLower (pyStripLower s) = pyStripLower s := by
  show String.mk ((stripL ((stripL s.data).map lowChar)).map lowChar) =
       String.mk ((stripL s.data).map lowChar)
  rw [stripL_map_lowChar, List.map_map]
  congr 1
  apply List.map_congr_left
  intro c _
  exact lowChar_idem c

lemma normName_canon : ∀ kv ∈ CANON, normName kv.1 = kv.1 := by decide

lemma normName_idem (s : String) : normName (normName s) = normName s := by
  cases h : normFind (pyStripLower s) with
  | some kv =>
      have h1 : normName s = kv.1 := by unfold normName; rw [h]
      rw [h1]
      exact normName_canon kv (List.mem_of_find?_eq_some h)
  | none =>
      have h1 : normName s = pyStripLower s := by unfold normName; rw [h]
      rw [h1]
      show (match normFind (pyStripLower (pyStripLower s)) with
        | some kv => kv.1
        | none => pyStripLower (pyStripLower s)) = pyStripLower s
      rw [pyStripLower_idem, h]

lemma toNumeric_idem (c : Cell) : toNumeric (toNumeric c) = toNumeric c := by
  cases c with
  | num q => rfl
  | nan => rfl
  | str s =>
      cases h : parseRat s with
      | none => simp [toNumeric, h]
      | some q => simp [toNumeric, h]

lemma idxOf?_eq_none_iff (c : String) : ∀ l : List String, idxOf? c l = none ↔ c ∉ l := by
  intro l
  induction l with
  | nil => simp [idxOf?]
  | cons x xs ih =>
      by_cases hx : x = c
      · simp [idxOf?, hx]
      · simp [idxOf?, hx, ih]
        intro h
        exact fun he => hx he.symm

lemma idxOf?_get? (c : String) : ∀ (l : List String) (i : Nat),
    idxOf? c l = some i → l.get? i = some c := by
  intro l
  induction l with
  | nil => intro i h; simp [idxOf?] at h
  | cons x xs ih =>
      intro i h
      by_cases hx : x = c
      · simp [idxOf?, hx] at h
        subst h hx
        rfl
      · simp [idxOf?, hx] at h
        obtain ⟨j, hj, hi⟩ := h
        subst hi
        simpa using ih j hj

lemma idxOf?_lt_length (c : String) (l : List String) (i : Nat)
    (h : idxOf? c l = some i) : i < l.length := by
  have := idxOf?_get? c l i h
  exact List.get?_eq_some.mp this |>.1

lemma idxOf?_append_left (c : String) :
    ∀ (l l2 : List String) (i : Nat), idxOf? c l = some i → idxOf? c (l ++ l2) = some i := by
  intro l
  induction l with
  | nil => intro l2 i h; simp [idxOf?] at h
  | cons x xs ih =>
      intro l2 i h
      by_cases hx : x = c
      · simp [idxOf?, hx] at h ⊢
        exact h
      · simp [idxOf?, hx] at h ⊢
        obtain ⟨j, hj, hi⟩ := h
        exact ⟨j, ih l2 j hj, hi⟩

lemma idxOf?_append_new (c : String) :
    ∀ l : List String, c ∉ l → idxOf? c (l ++ [c]) = some l.length := by
  intro l
  induction l with
  | nil => simp [idxOf?]
  | cons x xs ih =>
      intro hc
      have hx : x ≠ c := fun he => hc (by simp [he])
      have hxs : c ∉ xs := fun he => hc (by simp [he])
      simp [idxOf?, hx, ih hxs]

lemma idxOf?_isSome_of_mem (c : String) :
    ∀ l : List String, c ∈ l → (idxOf? c l).isSome := by
  intro l
  induction l with
  | nil => simp
  | cons x xs ih =>
      intro hc
      by_cases hx : x = c
      · simp [idxOf?, hx]
      · have : c ∈ xs := by
          rcases List.mem_cons.mp hc with h | h
          · exact absurd h.symm hx
          · exact h
        have := ih this
        simp [idxOf?, hx]
        cases hi : idxOf? c xs with
        | none => rw [hi] at this; simp at this
        | some j => simp

lemma set_getCell_self : ∀ (r : List Cell) (i : Nat), r.set i (getCell r i) = r := by
  intro r
  induction r with
  | nil => intro i; rfl
  | cons a t ih =>
      intro i
      cases i with
      | zero => rfl
      | succ n =>
          show a :: t.set n (getCell (a :: t) (n + 1)) = a :: t
          have : getCell (a :: t) (n + 1) = getCell t n := rfl
          rw [this, ih n]

lemma getCell_set_ne (v : Cell) :
    ∀ (r : List Cell) (i j : Nat), i ≠ j → getCell (r.set j v) i = getCell r i := by
  intro r
  induction r with
  | nil => intro i j _; rfl
  | cons a t ih =>
      intro i j hij
      cases j with
      | zero =>
          cases i with
          | zero => exact absurd rfl hij
          | succ n => rfl
      | succ m =>
          cases i with
          | zero => rfl
          | succ n =>
              show getCell (t.set m v) n = getCell t n
              exact ih n m (fun h => hij (by rw [h]))

lemma getCell_append_lt :
    ∀ (r s : List Cell) (i : Nat), i < r.length → getCell (r ++ s) i = getCell r i := by
  intro r
  induction r with
  | nil => intro s i h; simp at h
  | cons a t ih =>
      intro s i h
      cases i with
      | zero => rfl
      | succ n =>
          show getCell (t ++ s) n = getCell t n
          exact ih s n (by simpa using h)

lemma getCell_append_len :
    ∀ (r : List Cell) (x : Cell), getCell (r ++ [x]) r.length = x := by
  intro r
  induction r with
  | nil => intro x; rfl
  | cons a t ih => intro x; exact ih x

lemma getCell_set_lt (v : Cell) :
    ∀ (r : List Cell) (i : Nat), i < r.length → getCell (r.set i v) i = v := by
  intro r
  induction r with
  | nil => intro i h; simp at h
  | cons a t ih =>
      intro i h
      cases i with
      | zero => rfl
      | succ n =>
          show getCell (t.set n v) n = v
          exact ih n (by simpa using h)

lemma ntable_ext (a b : NTable) (h1 : a.cols = b.cols) (h2 : a.rows = b.rows) : a = b := by
  cases a; cases b
  cases h1; cases h2
  rfl

lemma contains_eq_mem (l : List String) (c : String) : l.contains c = true ↔ c ∈ l := by
  simp [List.elem_iff]

lemma coerceCol_cols (t : NTable) (c : String) : (coerceCol t c).cols = t.cols := by
  unfold coerceCol
  cases idxOf? c t.cols <;> rfl

lemma coerceCol_rows_length (t : NTable) (c : String) :
    (coerceCol t c).rows.length = t.rows.length := by
  unfold coerceCol
  cases idxOf? c t.cols <;> simp

lemma WF_coerceCol (t : NTable) (c : String) (h : WF t) : WF (coerceCol t c) := by
  unfold coerceCol
  cases hix : idxOf? c t.cols with
  | none => exact h
  | some i =>
      intro r hr
      simp only [List.mem_map] at hr
      obtain ⟨r0, hr0, hr0e⟩ := hr
      subst hr0e
      simpa using h r0 hr0

lemma foldl_coerce_cols : ∀ (l : List String) (t : NTable),
    (l.foldl coerceCol t).cols = t.cols := by
  intro l
  induction l with
  | nil => intro t; rfl
  | cons x xs ih =>
      intro t
      show (xs.foldl coerceCol (coerceCol t x)).cols = t.cols
      rw [ih, coerceCol_cols]

lemma foldl_coerce_rows_length : ∀ (l : List String) (t : NTable),
    (l.foldl coerceCol t).rows.length = t.rows.length := by
  intro l
  induction l with
  | nil => intro t; rfl
  | cons x xs ih =>
      intro t
      show (xs.foldl coerceCol (coerceCol t x)).rows.length = t.rows.length
      rw [ih, coerceCol_rows_length]

lemma WF_foldl_coerce : ∀ (l : List String) (t : NTable), WF t → WF (l.foldl coerceCol t) := by
  intro l
  induction l with
  | nil => intro t h; exact h
  | cons x xs ih =>
      intro t h
      exact ih (coerceCol t x) (WF_coerceCol t x h)

lemma numFixed_coerce_self (t : NTable) (c : String) (hwf : WF t) :
    NumFixedAt (coerceCol t c) c := by
  intro i hi r hr
  rw [coerceCol_cols] at hi
  unfold coerceCol at hr
  rw [hi] at hr
  simp only [List.mem_map] at hr
  obtain ⟨r0, hr0, hr0e⟩ := hr
  subst hr0e
  have hlen : i < r0.length := by
    rw [hwf r0 hr0]
    exact idxOf?_lt_length c t.cols i hi
  rw [getCell_set_lt _ r0 i hlen, toNumeric_idem]

lemma numFixed_coerce_other (t : NTable) (c d : String) (hne : c ≠ d)
    (h : NumFixedAt t c) : NumFixedAt (coerceCol t d) c := by
  intro i hi r hr
  rw [coerceCol_cols] at hi
  unfold coerceCol at hr
  cases hix : idxOf? d t.cols with
  | none =>
      rw [hix] at hr
      exact h i hi r hr
  | some j =>
      rw [hix] at hr
      simp only [List.mem_map] at hr
      obtain ⟨r0, hr0, hr0e⟩ := hr
      subst hr0e
      have hij : i ≠ j := by
        intro he
        have h1 := idxOf?_get? c t.cols i hi
        have h2 := idxOf?_get? d t.cols j hix
        rw [he, h2] at h1
        exact hne (Option.some.inj h1).symm
      rw [getCell_set_ne _ r0 i j hij]
      exact h i hi r0 hr0

lemma numFixed_foldl_pres (c : String) : ∀ (l : List String) (t : NTable),
    NumFixedAt t c → (∀ d ∈ l, c ≠ d) → NumFixedAt (l.foldl coerceCol t) c := by
  intro l
  induction l with
  | nil => intro t h _; exact h
  | cons x xs ih =>
      intro t h hd
      show NumFixedAt (xs.foldl coerceCol (coerceCol t x)) c
      exact ih (coerceCol t x)
        (numFixed_coerce_other t c x (hd x (by simp)) h)
        (fun d hdm => hd d (by simp [hdm]))

lemma numFixed_foldl : ∀ (l : List String) (t : NTable), WF t → l.Nodup →
    ∀ c ∈ l, NumFixedAt (l.foldl coerceCol t) c := by
  intro l
  induction l with
  | nil => simp
  | cons x xs ih =>
      intro t hwf hnd c hc
      show NumFixedAt (xs.foldl coerceCol (coerceCol t x)) c
      rcases List.mem_cons.mp hc with hcx | hcxs
      · subst hcx
        apply numFixed_foldl_pres c xs (coerceCol t c)
          (numFixed_coerce_self t c hwf)
        intro d hdm he
        subst he
        exact (List.nodup_cons.mp hnd).1 hdm
      · exact ih (coerceCol t x) (WF_coerceCol t x hwf) (List.nodup_cons.mp hnd).2 c hcxs

lemma coerceCol_eq_self (t : NTable) (c : String) (h : NumFixedAt t c) :
    coerceCol t c = t := by
  unfold coerceCol
  cases hix : idxOf? c t.cols with
  | none => rfl
  | some i =>
      apply ntable_ext
      · rfl
      · show t.rows.map (fun r => r.set i (toNumeric (getCell r i))) = t.rows
        have : ∀ r ∈ t.rows, r.set i (toNumeric (getCell r i)) = id r := by
          intro r hr
          rw [h i hix r hr]
          simp [set_getCell_self]
        rw [List.map_congr_left this, List.map_id]

lemma foldl_coerce_eq_self : ∀ (l : List String) (t : NTable),
    (∀ c ∈ l, NumFixedAt t c) → l.foldl coerceCol t = t := by
  intro l
  induction l with
  | nil => intro t _; rfl
  | cons x xs ih =>
      intro t h
      show xs.foldl coerceCol (coerceCol t x) = t
      rw [coerceCol_eq_self t x (h x (by simp))]
      exact ih t (fun c hc => h c (by simp [hc]))

lemma toNumeric_cellAdd (x y : Cell) : toNumeric (cellAdd x y) = cellAdd x y := by
  cases x <;> cases y <;> rfl

lemma toNumeric_cellSub (x y : Cell) : toNumeric (cellSub x y) = cellSub x y := by
  cases x <;> cases y <;> rfl

lemma contains_true_of_mem (l : List String) (c : String) (h : c ∈ l) :
    l.contains c = true := (contains_eq_mem l c).mpr h

lemma contains_false_of_not_mem (l : List String) (c : String) (h : c ∉ l) :
    l.contains c = false := by
  cases hc : l.contains c
  · rfl
  · exact absurd ((contains_eq_mem l c).mp hc) h

lemma deriveCol_some (t : NTable) (n : String) (f : Cell → Cell → Cell)
    (a b : String) (i j : Nat)
    (ha : idxOf? a t.cols = some i) (hb : idxOf? b t.cols = some j) :
    deriveCol t n f a b =
      ⟨t.cols ++ [n], t.rows.map (fun r => r ++ [f (getCell r i) (getCell r j)])⟩ := by
  unfold deriveCol
  rw [ha, hb]

lemma deriveCol_rows_length (t : NTable) (n : String) (f : Cell → Cell → Cell)
    (a b : String) : (deriveCol t n f a b).rows.length = t.rows.length := by
  unfold deriveCol
  cases idxOf? a t.cols <;> cases idxOf? b t.cols <;> simp

lemma WF_deriveCol (t : NTable) (n : String) (f : Cell → Cell → Cell)
    (a b : String) (hwf : WF t) : WF (deriveCol t n f a b) := by
  unfold deriveCol
  cases hia : idxOf? a t.cols with
  | none => exact hwf
  | some i =>
      cases hib : idxOf? b t.cols with
      | none => exact hwf
      | some j =>
          intro r hr
          simp only [List.mem_map] at hr
          obtain ⟨r0, hr0, hr0e⟩ := hr
          subst hr0e
          simp [hwf r0 hr0]

lemma numFixed_of_not_mem (t : NTable) (c : String) (h : c ∉ t.cols) :
    NumFixedAt t c := by
  intro i hi
  rw [(idxOf?_eq_none_iff c t.cols).mpr h] at hi
  cases hi

lemma numFixed_deriveCol (t : NTable) (n : String) (f : Cell → Cell → Cell)
    (a b c : String) (hwf : WF t) (hf : ∀ x y, toNumeric (f x y) = f x y)
    (h : NumFixedAt t c) : NumFixedAt (deriveCol t n f a b) c := by
  cases hia : idxOf? a t.cols with
  | none =>
      unfold deriveCol
      rw [hia]
      exact h
  | some i0 =>
      cases hib : idxOf? b t.cols with
      | none =>
          unfold deriveCol
          rw [hia, hib]
          exact h
      | some j0 =>
          rw [deriveCol_some t n f a b i0 j0 hia hib]
          intro i hi r hr
          simp only [List.mem_map] at hr
          obtain ⟨r0, hr0, hr0e⟩ := hr
          subst hr0e
          cases hcx : idxOf? c t.cols with
          | some i1 =>
              rw [idxOf?_append_left c t.cols [n] i1 hcx] at hi
              have hii : i = i1 := (Option.some.inj hi).symm
              subst hii
              have hlt : i < r0.length := by
                rw [hwf r0 hr0]
                exact idxOf?_lt_length c t.cols i hcx
              rw [getCell_append_lt r0 _ i hlt]
              exact h i hcx r0 hr0
          | none =>
              have hcnot : c ∉ t.cols := (idxOf?_eq_none_iff c t.cols).mp hcx
              by_cases hcn : c = n
              · subst hcn
                rw [idxOf?_append_new c t.cols hcnot] at hi
                have hii : i = t.cols.length := (Option.some.inj hi).symm
                subst hii
                have hr0len : r0.length = t.cols.length := hwf r0 hr0
                rw [← hr0len, getCell_append_len]
                exact hf _ _
              · have : idxOf? c (t.cols ++ [n]) = none := by
                  rw [idxOf?_eq_none_iff]
                  simp [hcnot, hcn]
                rw [this] at hi
                cases hi

lemma totalStage_cases (t : NTable) :
    (totalStage t = t ∧
      ("total" ∈ t.cols ∨ "precio_venta" ∉ t.cols ∨ "iva" ∉ t.cols)) ∨
    ((totalStage t).cols = t.cols ++ ["total"] ∧ "total" ∉ t.cols ∧
      "precio_venta" ∈ t.cols ∧ "iva" ∈ t.cols ∧
      (totalStage t).rows.length = t.rows.length) := by
  by_cases hT : "total" ∈ t.cols
  · left
    constructor
    · unfold totalStage
      rw [contains_true_of_mem t.cols "total" hT]
      simp
    · exact Or.inl hT
  · by_cases hP : "precio_venta" ∈ t.cols
    · by_cases hI : "iva" ∈ t.cols
      · right
        have hcond : totalStage t = deriveCol t "total" cellAdd "precio_venta" "iva" := by
          unfold totalStage
          rw [contains_false_of_not_mem t.cols "total" hT,
              contains_true_of_mem t.cols "precio_venta" hP,
              contains_true_of_mem t.cols "iva" hI]
          simp
        cases hia : idxOf? "precio_venta" t.cols with
        | none => exact absurd ((idxOf?_eq_none_iff _ _).mp hia) (by simpa using hP)
        | some i =>
            cases hib : idxOf? "iva" t.cols with
            | none => exact absurd ((idxOf?_eq_none_iff _ _).mp hib) (by simpa using hI)
            | some j =>
                rw [hcond, deriveCol_some t "total" cellAdd "precio_venta" "iva" i j hia hib]
                refine ⟨rfl, hT, hP, hI, by simp⟩
      · left
        constructor
        · unfold totalStage
          rw [contains_false_of_not_mem t.cols "iva" hI]
          simp
        · exact Or.inr (Or.inr hI)
    · left
      constructor
      · unfold totalStage
        rw [contains_false_of_not_mem t.cols "precio_venta" hP]
        simp
      · exact Or.inr (Or.inl hP)

lemma ivaStage_cases (t : NTable) :
    (ivaStage t = t ∧
      ("iva" ∈ t.cols ∨ "precio_venta" ∉ t.cols ∨ "total" ∉ t.cols)) ∨
    ((ivaStage t).cols = t.cols ++ ["iva"] ∧ "iva" ∉ t.cols ∧
      "precio_venta" ∈ t.cols ∧ "total" ∈ t.cols ∧
      (ivaStage t).rows.length = t.rows.length) := by
  by_cases hT : "iva" ∈ t.cols
  · left
    constructor
    · unfold ivaStage
      rw [contains_true_of_mem t.cols "iva" hT]
      simp
    · exact Or.inl hT
  · by_cases hP : "precio_venta" ∈ t.cols
    · by_cases hI : "total" ∈ t.cols
      · right
        have hcond : ivaStage t = deriveCol t "iva" cellSub "total" "precio_venta" := by
          unfold ivaStage
          rw [contains_false_of_not_mem t.cols "iva" hT,
              contains_true_of_mem t.cols "precio_venta" hP,
              contains_true_of_mem t.cols "total" hI]
          simp
        cases hia : idxOf? "total" t.cols with
        | none => exact absurd ((idxOf?_eq_none_iff _ _).mp hia) (by simpa using hI)
        | some i =>
            cases hib : idxOf? "precio_venta" t.cols with
            | none => exact absurd ((idxOf?_eq_none_iff _ _).mp hib) (by simpa using hP)
            | some j =>
                rw [hcond, deriveCol_some t "iva" cellSub "total" "precio_venta" i j hia hib]
                refine ⟨rfl, hT, hP, hI, by simp⟩
      · left
        constructor
        · unfold ivaStage
          rw [contains_false_of_not_mem t.cols "total" hI]
          simp
        · exact Or.inr (Or.inr hI)
    · left
      constructor
      · unfold ivaStage
        rw [contains_false_of_not_mem t.cols "precio_venta" hP]
        simp
      · exact Or.inr (Or.inl hP)

lemma WF_totalStage (t : NTable) (h : WF t) : WF (totalStage t) := by
  unfold totalStage
  split
  · exact WF_deriveCol t "total" cellAdd "precio_venta" "iva" h
  · exact h

lemma WF_ivaStage (t : NTable) (h : WF t) : WF (ivaStage t) := by
  unfold ivaStage
  split
  · exact WF_deriveCol t "iva" cellSub "total" "precio_venta" h
  · exact h

lemma totalStage_rows_length (t : NTable) :
    (totalStage t).rows.length = t.rows.length := by
  unfold totalStage
  split
  · exact deriveCol_rows_length t "total" cellAdd "precio_venta" "iva"
  · rfl

lemma ivaStage_rows_length (t : NTable) :
    (ivaStage t).rows.length = t.rows.length := by
  unfold ivaStage
  split
  · exact deriveCol_rows_length t "iva" cellSub "total" "precio_venta"
  · rfl

lemma numFixed_totalStage (t : NTable) (c : String) (hwf : WF t)
    (h : NumFixedAt t c) : NumFixedAt (totalStage t) c := by
  unfold totalStage
  split
  · exact numFixed_deriveCol t "total" cellAdd "precio_venta" "iva" c hwf toNumeric_cellAdd h
  · exact h

lemma numFixed_ivaStage (t : NTable) (c : String) (hwf : WF t)
    (h : NumFixedAt t c) : NumFixedAt (ivaStage t) c := by
  unfold ivaStage
  split
  · exact numFixed_deriveCol t "iva" cellSub "total" "precio_venta" c hwf toNumeric_cellSub h
  · exact h

lemma totalStage_eq_self_total_mem (t : NTable) (h : "total" ∈ t.cols) :
    totalStage t = t := by
  unfold totalStage
  rw [contains_true_of_mem t.cols "total" h]
  simp

lemma totalStage_eq_self_pv_not_mem (t : NTable) (h : "precio_venta" ∉ t.cols) :
    totalStage t = t := by
  unfold totalStage
  rw [contains_false_of_not_mem t.cols "precio_venta" h]
  simp

lemma totalStage_eq_self_iva_not_mem (t : NTable) (h : "iva" ∉ t.cols) :
    totalStage t = t := by
  unfold totalStage
  rw [contains_false_of_not_mem t.cols "iva" h]
  simp

lemma ivaStage_eq_self_iva_mem (t : NTable) (h : "iva" ∈ t.cols) :
    ivaStage t = t := by
  unfold ivaStage
  rw [contains_true_of_mem t.cols "iva" h]
  simp

lemma ivaStage_eq_self_pv_not_mem (t : NTable) (h : "precio_venta" ∉ t.cols) :
    ivaStage t = t := by
  unfold ivaStage
  rw [contains_false_of_not_mem t.cols "precio_venta" h]
  simp

lemma ivaStage_eq_self_total_not_mem (t : NTable) (h : "total" ∉ t.cols) :
    ivaStage t = t := by
  unfold ivaStage
  rw [contains_false_of_not_mem t.cols "total" h]
  simp

lemma map_normName_self (l : List String) (h : ∀ c ∈ l, normName c = c) :
    l.map normName = l := by
  have := List.map_congr_left (g := id) (fun x hx => h x hx)
  rw [this, List.map_id]

lemma dupAny_append_new (l : List String) (x : String) (hx : x ∉ l)
    (h : canonKeys.any (fun c => 2 ≤ l.count c) = false) :
    canonKeys.any (fun c => 2 ≤ (l ++ [x]).count c) = false := by
  simp only [List.any_eq_false, decide_eq_true_eq] at h ⊢
  intro c hc
  have h1 := h c hc
  rw [List.count_append]
  by_cases hxc : x = c
  · subst hxc
    have h0 : l.count x = 0 := List.count_eq_zero.mpr hx
    rw [h0]
    simp [List.count_cons, List.count_nil]
  · have h2 : List.count c [x] = 0 := by
      rw [List.count_eq_zero]
      intro hmem
      simp at hmem
      exact hxc hmem.symm
    rw [h2]
    simpa using h1

/-- C8: the normalizer is idempotent: for every (rectangular) table on which
`normalize_columns` succeeds, applying it to its own output returns that
output unchanged. -/

theorem c8_normalize_idempotent (t u : NTable) (hwf : WF t)
    (h : normalizeColumns t = Except.ok u) : normalizeColumns u = Except.ok u := by
  by_cases hemp : isEmptyN t = true
  · have ht : t = u := by
      unfold normalizeColumns at h
      rw [if_pos hemp] at h
      exact Except.ok.inj h
    subst ht
    unfold normalizeColumns
    rw [if_pos hemp]
  · by_cases hdup : dupCanon (renameStage t) = true
    · unfold normalizeColumns at h
      rw [if_neg hemp, if_pos hdup] at h
      cases h
    · unfold normalizeColumns at h
      rw [if_neg hemp, if_neg hdup] at h
      have hu : ivaStage (totalStage (coerceStage (renameStage t))) = u := Except.ok.inj h
      have hwf1 : WF (renameStage t) := by
        intro r hr
        show r.length = (t.cols.map normName).length
        rw [List.length_map]
        exact hwf r hr
      have hwf2 : WF (coerceStage (renameStage t)) := WF_foldl_coerce canonKeys _ hwf1
      have hwf3 : WF (totalStage (coerceStage (renameStage t))) := WF_totalStage _ hwf2
      have hcols2 : (coerceStage (renameStage t)).cols = t.cols.map normName :=
        foldl_coerce_cols canonKeys (renameStage t)
      -- the possible column layouts of the output
      have hshape : u.cols = t.cols.map normName ∨
          (u.cols = t.cols.map normName ++ ["total"] ∧
            "total" ∉ t.cols.map normName) ∨
          (u.cols = t.cols.map normName ++ ["iva"] ∧
            "iva" ∉ t.cols.map normName) ∨
          (u.cols = (t.cols.map normName ++ ["total"]) ++ ["iva"] ∧
            "total" ∉ t.cols.map normName ∧
            "iva" ∉ t.cols.map normName ++ ["total"]) := by
        rcases totalStage_cases (coerceStage (renameStage t)) with
          ⟨hT3, _⟩ | ⟨hc3, hn3, _, _, _⟩
        · rcases ivaStage_cases (totalStage (coerceStage (renameStage t))) with
            ⟨hT4, _⟩ | ⟨hc4, hn4, _, _, _⟩
          · left
            rw [← hu, hT4, hT3, hcols2]
          · right; right; left
            constructor
            · rw [← hu, hc4, hT3, hcols2]
            · rw [hT3, hcols2] at hn4
              exact hn4
        · rcases ivaStage_cases (totalStage (coerceStage (renameStage t))) with
            ⟨hT4, _⟩ | ⟨hc4, hn4, _, _, _⟩
          · right; left
            constructor
            · rw [← hu, hT4, hc3, hcols2]
            · rw [hcols2] at hn3
              exact hn3
          · right; right; right
            refine ⟨?_, ?_, ?_⟩
            · rw [← hu, hc4, hc3, hcols2]
            · rw [hcols2] at hn3
              exact hn3
            · rw [hc3, hcols2] at hn4
              exact hn4
      have helem : ∀ c ∈ t.cols.map normName, normName c = c := by
        intro c hc
        obtain ⟨y, _, rfl⟩ := List.mem_map.mp hc
        exact normName_idem y
      have hTotN : normName "total" = "total" := by decide
      have hIvaN : normName "iva" = "iva" := by decide
      -- renaming the output is a no-op
      have hren : renameStage u = u := by
        refine ntable_ext (renameStage u) u ?_ rfl
        show u.cols.map normName = u.cols
        rcases hshape with hs | ⟨hs, _⟩ | ⟨hs, _⟩ | ⟨hs, _, _⟩
        · rw [hs]
          exact map_normName_self _ helem
        · rw [hs, List.map_append, map_normName_self _ helem]
          simp [hTotN]
        · rw [hs, List.map_append, map_normName_self _ helem]
          simp [hIvaN]
        · rw [hs, List.map_append, List.map_append, map_normName_self _ helem]
          simp [hTotN, hIvaN]
      -- no canonical column is duplicated in the output
      have hbase : canonKeys.any (fun c => 2 ≤ (t.cols.map normName).count c) = false := by
        have hd : dupCanon (renameStage t) = false := by
          revert hdup
          cases dupCanon (renameStage t) <;> simp
        simpa [dupCanon, renameStage] using hd
      have hdupF : dupCanon u = false := by
        show canonKeys.any (fun c => 2 ≤ u.cols.count c) = false
        rcases hshape with hs | ⟨hs, hn⟩ | ⟨hs, hn⟩ | ⟨hs, hn1, hn2⟩
        · rw [hs]
          exact hbase
        · rw [hs]
          exact dupAny_append_new _ "total" hn hbase
        · rw [hs]
          exact dupAny_append_new _ "iva" hn hbase
        · rw [hs]
          exact dupAny_append_new _ "iva" hn2 (dupAny_append_new _ "total" hn1 hbase)
      -- the output is not empty
      have hlen : u.rows.length = t.rows.length := by
        rw [← hu, ivaStage_rows_length, totalStage_rows_length]
        show (canonKeys.foldl coerceCol (renameStage t)).rows.length = t.rows.length
        rw [foldl_coerce_rows_length]
        rfl
      have hne : t.rows ≠ [] ∧ t.cols ≠ [] := by
        have h1 := hemp
        simp [isEmptyN, List.isEmpty_iff, not_or] at h1
        exact h1
      have hempU : ¬ isEmptyN u = true := by
        intro habs
        simp [isEmptyN, List.isEmpty_iff] at habs
        rcases habs with h2 | h2
        · apply hne.1
          have : t.rows.length = 0 := by rw [← hlen, h2]; rfl
          exact List.length_eq_zero.mp this
        · rcases hshape with hs | ⟨hs, _⟩ | ⟨hs, _⟩ | ⟨hs, _, _⟩ <;> rw [hs] at h2
          · exact hne.2 (List.map_eq_nil_iff.mp h2)
          · simp at h2
          · simp at h2
          · simp at h2
      -- all canonical columns of the output are already numeric
      have hfixU : ∀ c ∈ canonKeys, NumFixedAt u c := by
        intro c hc
        have h2 := numFixed_foldl canonKeys (renameStage t) hwf1 (by decide) c hc
        have h3 := numFixed_totalStage _ c hwf2 h2
        have h4 := numFixed_ivaStage _ c hwf3 h3
        rw [hu] at h4
        exact h4
      have hco : coerceStage u = u := foldl_coerce_eq_self canonKeys u hfixU
      -- membership transport into the output columns
      have humem : ∀ x, x ∈ (totalStage (coerceStage (renameStage t))).cols → x ∈ u.cols := by
        intro x hx
        rcases ivaStage_cases (totalStage (coerceStage (renameStage t))) with
          ⟨hT4, _⟩ | ⟨hc4, _, _, _, _⟩
        · rw [← hu, hT4]
          exact hx
        · rw [← hu, hc4]
          exact List.mem_append.mpr (Or.inl hx)
      -- the total derivation does not fire on the output
      have hto : totalStage u = u := by
        by_cases hT : "total" ∈ u.cols
        · exact totalStage_eq_self_total_mem u hT
        · rcases totalStage_cases (coerceStage (renameStage t)) with
            ⟨hT3, hD3⟩ | ⟨hc3, _, _, _, _⟩
          · rcases hD3 with hmem | hpv | hiva
            · exact absurd (humem "total" (by rw [hT3]; exact hmem)) hT
            · apply totalStage_eq_self_pv_not_mem
              have hpv' : "precio_venta" ∉ t.cols.map normName := by
                rw [← hcols2]
                exact hpv
              rcases hshape with hs | ⟨hs, _⟩ | ⟨hs, _⟩ | ⟨hs, _, _⟩ <;> rw [hs]
              · exact hpv'
              · intro hmem
                rcases List.mem_append.mp hmem with hm | hm
                · exact hpv' hm
                · simp at hm
              · intro hmem
                rcases List.mem_append.mp hmem with hm | hm
                · exact hpv' hm
                · simp at hm
              · intro hmem
                rcases List.mem_append.mp hmem with hm | hm
                · rcases List.mem_append.mp hm with hm2 | hm2
                  · exact hpv' hm2
                  · simp at hm2
                · simp at hm
            · rcases ivaStage_cases (totalStage (coerceStage (renameStage t))) with
                ⟨hT4, _⟩ | ⟨_, _, _, htotmem, _⟩
              · apply totalStage_eq_self_iva_not_mem
                rw [← hu, hT4, hT3]
                exact hiva
              · exact absurd (humem "total" htotmem) hT
          · have hmem3 : "total" ∈ (totalStage (coerceStage (renameStage t))).cols := by
              rw [hc3]
              simp
            exact absurd (humem "total" hmem3) hT
      -- the iva derivation does not fire on the output
      have hiv : ivaStage u = u := by
        by_cases hI : "iva" ∈ u.cols
        · exact ivaStage_eq_self_iva_mem u hI
        · rcases ivaStage_cases (totalStage (coerceStage (renameStage t))) with
            ⟨hT4, hD4⟩ | ⟨hc4, _, _, _, _⟩
          · rcases hD4 with hmem | hpv | htot
            · exact absurd (by rw [← hu, hT4]; exact hmem) hI
            · apply ivaStage_eq_self_pv_not_mem
              rw [← hu, hT4]
              exact hpv
            · apply ivaStage_eq_self_total_not_mem
              rw [← hu, hT4]
              exact htot
          · exact absurd (by rw [← hu, hc4]; simp) hI
      unfold normalizeColumns
      rw [if_neg hempU, hren]
      rw [if_neg (by simp [hdupF])]
      rw [hco, hto, hiv]

lemma WF_renameStage (t : NTable) (h : WF t) : WF (renameStage t) := by
  intro r hr
  show r.length = (t.cols.map normName).length
  rw [List.length_map]
  exact h r hr

lemma totalStage_fired (t : NTable) (h1 : "total" ∉ t.cols)
    (h2 : "precio_venta" ∈ t.cols) (h3 : "iva" ∈ t.cols) :
    ∃ i j, idxOf? "precio_venta" t.cols = some i ∧ idxOf? "iva" t.cols = some j ∧
      totalStage t = ⟨t.cols ++ ["total"],
        t.rows.map (fun r => r ++ [cellAdd (getCell r i) (getCell r j)])⟩ := by
  have hcond : totalStage t = deriveCol t "total" cellAdd "precio_venta" "iva" := by
    unfold totalStage
    rw [contains_false_of_not_mem t.cols "total" h1,
        contains_true_of_mem t.cols "precio_venta" h2,
        contains_true_of_mem t.cols "iva" h3]
    simp
  cases hia : idxOf? "precio_venta" t.cols with
  | none => exact absurd h2 ((idxOf?_eq_none_iff _ _).mp hia)
  | some i =>
      cases hib : idxOf? "iva" t.cols with
      | none => exact absurd h3 ((idxOf?_eq_none_iff _ _).mp hib)
      | some j =>
          exact ⟨i, j, rfl, rfl, by
            rw [hcond, deriveCol_some t "total" cellAdd "precio_venta" "iva" i j hia hib]⟩

lemma ivaStage_fired (t : NTable) (h1 : "iva" ∉ t.cols)
    (h2 : "precio_venta" ∈ t.cols) (h3 : "total" ∈ t.cols) :
    ∃ i j, idxOf? "total" t.cols = some i ∧ idxOf? "precio_venta" t.cols = some j ∧
      ivaStage t = ⟨t.cols ++ ["iva"],
        t.rows.map (fun r => r ++ [cellSub (getCell r i) (getCell r j)])⟩ := by
  have hcond : ivaStage t = deriveCol t "iva" cellSub "total" "precio_venta" := by
    unfold ivaStage
    rw [contains_false_of_not_mem t.cols "iva" h1,
        contains_true_of_mem t.cols "precio_venta" h2,
        contains_true_of_mem t.cols "total" h3]
    simp
  cases hia : idxOf? "total" t.cols with
  | none => exact absurd h3 ((idxOf?_eq_none_iff _ _).mp hia)
  | some i =>
      cases hib : idxOf? "precio_venta" t.cols with
      | none => exact absurd h2 ((idxOf?_eq_none_iff _ _).mp hib)
      | some j =>
          exact ⟨i, j, rfl, rfl, by
            rw [hcond, deriveCol_some t "iva" cellSub "total" "precio_venta" i j hia hib]⟩

lemma colVals_append_derived (X : NTable) (hwfX : WF X) (n : String) (hn : n ∉ X.cols)
    (g : List Cell → Cell) :
    colVals ⟨X.cols ++ [n], X.rows.map (fun r => r ++ [g r])⟩ n = X.rows.map g := by
  show (match idxOf? n (X.cols ++ [n]) with
    | some i => (X.rows.map (fun r => r ++ [g r])).map (fun r => getCell r i)
    | none => []) = X.rows.map g
  rw [idxOf?_append_new n X.cols hn]
  show (X.rows.map (fun r => r ++ [g r])).map (fun r => getCell r X.cols.length)
    = X.rows.map g
  rw [List.map_map]
  apply List.map_congr_left
  intro r0 hr0
  show getCell (r0 ++ [g r0]) X.cols.length = g r0
  rw [← hwfX r0 hr0, getCell_append_len]

lemma colVals_append_keep (X : NTable) (hwfX : WF X) (n c : String) (i : Nat)
    (hc : idxOf? c X.cols = some i) (g : List Cell → Cell) :
    colVals ⟨X.cols ++ [n], X.rows.map (fun r => r ++ [g r])⟩ c
      = X.rows.map (fun r => getCell r i) := by
  show (match idxOf? c (X.cols ++ [n]) with
    | some k => (X.rows.map (fun r => r ++ [g r])).map (fun r => getCell r k)
    | none => []) = X.rows.map (fun r => getCell r i)
  rw [idxOf?_append_left c X.cols [n] i hc]
  show (X.rows.map (fun r => r ++ [g r])).map (fun r => getCell r i)
    = X.rows.map (fun r => getCell r i)
  rw [List.map_map]
  apply List.map_congr_left
  intro r0 hr0
  show getCell (r0 ++ [g r0]) i = getCell r0 i
  apply getCell_append_lt
  rw [hwfX r0 hr0]
  exact idxOf?_lt_length c X.cols i hc

lemma zipWith_map_same {α β γ : Type} (op : β → β → γ) (f g : α → β) (l : List α) :
    List.zipWith op (l.map f) (l.map g) = l.map (fun x => op (f x) (g x)) := by
  induction l with
  | nil => rfl
  | cons a t ih => simp [ih]

/-- C7 (amended): for tables with at least one row, `normalize_columns` adds a
`total` column equal to `precio_venta + iva` when `total` is absent after
renaming but both sources are present; adds `iva := total - precio_venta`
symmetrically; and performs no derivation when all three are present (the
result is exactly the renamed-and-coerced table).  Empty tables are returned
unchanged, so no derivation happens there. -/

theorem c7_derivations (t u : NTable) (hwf : WF t)
    (h : normalizeColumns t = Except.ok u) :
    (("total" ∉ (renameStage t).cols ∧ "precio_venta" ∈ (renameStage t).cols ∧
        "iva" ∈ (renameStage t).cols ∧ isEmptyN t = false) →
      u.cols = (renameStage t).cols ++ ["total"] ∧
      colVals u "total" =
        List.zipWith cellAdd (colVals u "precio_venta") (colVals u "iva"))
    ∧ (("iva" ∉ (renameStage t).cols ∧ "precio_venta" ∈ (renameStage t).cols ∧
        "total" ∈ (renameStage t).cols ∧ isEmptyN t = false) →
      u.cols = (renameStage t).cols ++ ["iva"] ∧
      colVals u "iva" =
        List.zipWith cellSub (colVals u "total") (colVals u "precio_venta"))
    ∧ (("total" ∈ (renameStage t).cols ∧ "precio_venta" ∈ (renameStage t).cols ∧
        "iva" ∈ (renameStage t).cols ∧ isEmptyN t = false) →
      u = coerceStage (renameStage t)) := by
  refine ⟨?_, ?_, ?_⟩
  · rintro ⟨hT, hP, hI, hE⟩
    have hemp : ¬ isEmptyN t = true := by rw [hE]; simp
    by_cases hdup : dupCanon (renameStage t) = true
    · unfold normalizeColumns at h
      rw [if_neg hemp, if_pos hdup] at h
      cases h
    · unfold normalizeColumns at h
      rw [if_neg hemp, if_neg hdup] at h
      have hu := Except.ok.inj h
      have hwf2 : WF (coerceStage (renameStage t)) :=
        WF_foldl_coerce canonKeys _ (WF_renameStage t hwf)
      have hXcols : (coerceStage (renameStage t)).cols = (renameStage t).cols :=
        foldl_coerce_cols canonKeys (renameStage t)
      have hT' : "total" ∉ (coerceStage (renameStage t)).cols := by
        rw [hXcols]; exact hT
      have hP' : "precio_venta" ∈ (coerceStage (renameStage t)).cols := by
        rw [hXcols]; exact hP
      have hI' : "iva" ∈ (coerceStage (renameStage t)).cols := by
        rw [hXcols]; exact hI
      obtain ⟨i, j, hia, hib, hfe⟩ := totalStage_fired _ hT' hP' hI'
      have hiva_mem : "iva" ∈ (totalStage (coerceStage (renameStage t))).cols := by
        rw [hfe]
        exact List.mem_append.mpr (Or.inl hI')
      have hiv := ivaStage_eq_self_iva_mem _ hiva_mem
      have hueq : u = ⟨(coerceStage (renameStage t)).cols ++ ["total"],
          (coerceStage (renameStage t)).rows.map
            (fun r => r ++ [cellAdd (getCell r i) (getCell r j)])⟩ := by
        rw [← hu, hiv, hfe]
      constructor
      · rw [hueq]
        show (coerceStage (renameStage t)).cols ++ ["total"] =
          (renameStage t).cols ++ ["total"]
        rw [hXcols]
      · rw [hueq,
            colVals_append_derived _ hwf2 "total" hT'
              (fun r => cellAdd (getCell r i) (getCell r j)),
            colVals_append_keep _ hwf2 "total" "precio_venta" i hia
              (fun r => cellAdd (getCell r i) (getCell r j)),
            colVals_append_keep _ hwf2 "total" "iva" j hib
              (fun r => cellAdd (getCell r i) (getCell r j)),
            zipWith_map_same]
  · rintro ⟨hT, hP, hI, hE⟩
    have hemp : ¬ isEmptyN t = true := by rw [hE]; simp
    by_cases hdup : dupCanon (renameStage t) = true
    · unfold normalizeColumns at h
      rw [if_neg hemp, if_pos hdup] at h
      cases h
    · unfold normalizeColumns at h
      rw [if_neg hemp, if_neg hdup] at h
      have hu := Except.ok.inj h
      have hwf2 : WF (coerceStage (renameStage t)) :=
        WF_foldl_coerce canonKeys _ (WF_renameStage t hwf)
      have hXcols : (coerceStage (renameStage t)).cols = (renameStage t).cols :=
        foldl_coerce_cols canonKeys (renameStage t)
      have hT' : "iva" ∉ (coerceStage (renameStage t)).cols := by
        rw [hXcols]; exact hT
      have hP' : "precio_venta" ∈ (coerceStage (renameStage t)).cols := by
        rw [hXcols]; exact hP
      have hI' : "total" ∈ (coerceStage (renameStage t)).cols := by
        rw [hXcols]; exact hI
      have hts := totalStage_eq_self_total_mem _ hI'
      obtain ⟨i, j, hia, hib, hfe⟩ := ivaStage_fired _ hT' hP' hI'
      have hueq : u = ⟨(coerceStage (renameStage t)).cols ++ ["iva"],
          (coerceStage (renameStage t)).rows.map
            (fun r => r ++ [cellSub (getCell r i) (getCell r j)])⟩ := by
        rw [← hu, hts, hfe]
      constructor
      · rw [hueq]
        show (coerceStage (renameStage t)).cols ++ ["iva"] =
          (renameStage t).cols ++ ["iva"]
        rw [hXcols]
      · rw [hueq,
            colVals_append_derived _ hwf2 "iva" hT'
              (fun r => cellSub (getCell r i) (getCell r j)),
            colVals_append_keep _ hwf2 "iva" "total" i hia
              (fun r => cellSub (getCell r i) (getCell r j)),
            colVals_append_keep _ hwf2 "iva" "precio_venta" j hib
              (fun r => cellSub (getCell r i) (getCell r j)),
            zipWith_map_same]
  · rintro ⟨hT, hP, hI, hE⟩
    have hemp : ¬ isEmptyN t = true := by rw [hE]; simp
    by_cases hdup : dupCanon (renameStage t) = true
    · unfold normalizeColumns at h
      rw [if_neg hemp, if_pos hdup] at h
      cases h
    · unfold normalizeColumns at h
      rw [if_neg hemp, if_neg hdup] at h
      have hu := Except.ok.inj h
      have hXcols : (coerceStage (renameStage t)).cols = (renameStage t).cols :=
        foldl_coerce_cols canonKeys (renameStage t)
      have h3 := totalStage_eq_self_total_mem (coerceStage (renameStage t))
        (by rw [hXcols]; exact hT)
      have h4 := ivaStage_eq_self_iva_mem (coerceStage (renameStage t))
        (by rw [hXcols]; exact hI)
      rw [← hu, h3, h4]

/-- C7 (counterexample): a zero-row table with `precio_venta` and `iva`
columns and no `total` column satisfies the claim's premise, yet
`normalize_columns` returns it unchanged (empty tables short-circuit), so no
`total` column is added. -/

theorem c7_counterexample :
    normalizeColumns ⟨["precio_venta","iva"], []⟩ =
      Except.ok ⟨["precio_venta","iva"], []⟩ ∧
    "precio_venta" ∈ (renameStage ⟨["precio_venta","iva"], []⟩).cols ∧
    "iva" ∈ (renameStage (⟨["precio_venta","iva"], []⟩ : NTable)).cols ∧
    "total" ∉ (renameStage (⟨["precio_venta","iva"], []⟩ : NTable)).cols ∧
    "total" ∉ (⟨["precio_venta","iva"], []⟩ : NTable).cols := by
  refine ⟨rfl, by decide, by decide, by decide, by decide⟩

/-- C7 (witness): the amended derivation theorem applied at a concrete table
with `precio_venta = 100`, `iva = 16` and no `total` column. -/

theorem c7_derivations_witness :
    c7uW.cols = (renameStage c7tW).cols ++ ["total"] ∧
    colVals c7uW "total" =
      List.zipWith cellAdd (colVals c7uW "precio_venta") (colVals c7uW "iva") :=
  (c7_derivations c7tW c7uW (by unfold WF; decide) (by with_unfolding_all rfl)).1
    ⟨by decide, by decide, by decide, by decide⟩

/-- C8 (witness): idempotence applied at a concrete table. -/

theorem c8_normalize_idempotent_witness : normalizeColumns c8uW = Except.ok c8uW :=
  c8_normalize_idempotent c8tW c8uW (by unfold WF; decide) (by decide)

lemma replaceNan0_cellDivEF (a b : Cell) :
    replaceNan0 (cellDivEF a b) =
      match a, b with
      | Cell.num x, Cell.num y =>
          if y = 0 then
            (if 0 < x then EF.pinf else if x < 0 then EF.ninf else EF.fin 0)
          else EF.fin (x / y)
      | _, _ => EF.fin 0 := by
  cases a with
  | str s => cases b <;> rfl
  | nan => cases b <;> rfl
  | num x =>
      cases b with
      | str s => rfl
      | nan => rfl
      | num y =>
          show replaceNan0 (if y = 0 then
              (if 0 < x then EF.pinf else if x < 0 then EF.ninf else EF.nan)
            else EF.fin (x / y)) =
            (if y = 0 then
              (if 0 < x then EF.pinf else if x < 0 then EF.ninf else EF.fin 0)
            else EF.fin (x / y))
          split_ifs <;> rfl

/-- C2 (amended): for a nonempty table with numeric `iva` and `precio_venta`
columns, `iva_pct_prom` is 100 times the mean over all rows where a row
contributes 0 when either value is missing or both are 0, `iva/precio_venta`
when `precio_venta` is nonzero, and a signed infinity when `precio_venta` is
0 and `iva` is nonzero — an infinite contribution makes the reported average
infinite instead of counting as 0. -/

theorem c2_iva_pct (t : NTable) (hE : isEmptyN t = false)
    (hI : "iva" ∈ t.cols) (hP : "precio_venta" ∈ t.cols)
    (hnum1 : ∀ x ∈ colVals t "iva", isNumOrNan x = true)
    (hnum2 : ∀ x ∈ colVals t "precio_venta", isNumOrNan x = true) :
    ∃ k, kpis (some t) = some k ∧ k.ivaPct = ivaPctAmendedSpec t := by
  cases hidx1 : idxOf? "iva" t.cols with
  | none => exact absurd hI ((idxOf?_eq_none_iff _ _).mp hidx1)
  | some i =>
      cases hidx2 : idxOf? "precio_venta" t.cols with
      | none => exact absurd hP ((idxOf?_eq_none_iff _ _).mp hidx2)
      | some j =>
          have hne : ¬ isEmptyN t = true := by rw [hE]; simp
          have hiva : dfGet t "iva" = some (t.rows.map (fun r => getCell r i)) := by
            unfold dfGet
            rw [hidx1]
            rfl
          have hpv : dfGet t "precio_venta" =
              some (t.rows.map (fun r => getCell r j)) := by
            unfold dfGet
            rw [hidx2]
            rfl
          refine ⟨_, by show kpisTable t = _; unfold kpisTable; rw [if_neg hne], ?_⟩
          show (match dfGet t "iva", dfGet t "precio_venta" with
            | some a, some p =>
                some (efMul100 (efMean ((List.zipWith cellDivEF a p).map replaceNan0)))
            | _, _ => none) = ivaPctAmendedSpec t
          rw [hiva, hpv]
          show some (efMul100 (efMean
              ((List.zipWith cellDivEF (t.rows.map (fun r => getCell r i))
                (t.rows.map (fun r => getCell r j))).map replaceNan0)))
            = ivaPctAmendedSpec t
          unfold ivaPctAmendedSpec
          rw [hidx1, hidx2]
          show _ = some (efMul100 (efMean (t.rows.map (fun r =>
            match getCell r i, getCell r j with
            | Cell.num a, Cell.num b =>
                if b = 0 then
                  (if 0 < a then EF.pinf else if a < 0 then EF.ninf else EF.fin 0)
                else EF.fin (a / b)
            | _, _ => EF.fin 0))))
          rw [zipWith_map_same cellDivEF (fun r => getCell r i) (fun r => getCell r j)
              t.rows, List.map_map]
          have hlist : List.map (replaceNan0 ∘ fun r => cellDivEF (getCell r i)
              (getCell r j)) t.rows = List.map (fun r =>
            match getCell r i, getCell r j with
            | Cell.num a, Cell.num b =>
                if b = 0 then
                  (if 0 < a then EF.pinf else if a < 0 then EF.ninf else EF.fin 0)
                else EF.fin (a / b)
            | _, _ => EF.fin 0) t.rows := by
            apply List.map_congr_left
            intro r _
            exact replaceNan0_cellDivEF (getCell r i) (getCell r j)
          rw [hlist]

/-- C2 (counterexample): on the concrete table, the code reports an infinite
`iva_pct_prom` while the claim's replace-undefined-with-0 mean is the finite
value 8; so the claim, as stated, is false on this input. -/

theorem c2_counterexample :
    kpis (some c2tW) = some ⟨none, none, some EF.pinf⟩ ∧
    ivaPctClaimSpec c2tW = some 8 ∧
    (some EF.pinf : Option EF) ≠ some (EF.fin 8) := by
  refine ⟨by with_unfolding_all rfl, by with_unfolding_all rfl, by decide⟩

/-- C2 (witness): the amended theorem applied at the concrete table. -/

theorem c2_iva_pct_witness :
    kpis (some c2tW) = some ⟨none, none, ivaPctAmendedSpec c2tW⟩ := by
  obtain ⟨k, hk, hivp⟩ := c2_iva_pct c2tW (by decide) (by decide) (by decide)
    (by decide) (by decide)
  have hval : kpis (some c2tW) = some ⟨none, none, some EF.pinf⟩ := by
    with_unfolding_all rfl
  have hspec : ivaPctAmendedSpec c2tW = some EF.pinf := by
    with_unfolding_all rfl
  rw [hval, hspec]

/-- C9: `kpis` returns the empty metrics result for a null or empty table;
each metric is `None` when a required column is missing — in particular
`margen_promedio` is `None` whenever `costo_proveedor` is absent — while a
present (numeric) `total` column still yields a `ticket_promedio`. -/

theorem c9_kpis_absent :
    kpis none = none ∧
    (∀ t : NTable, isEmptyN t = true → kpis (some t) = none) ∧
    (∀ t : NTable, isEmptyN t = false →
      ∃ k, kpis (some t) = some k ∧
        (("costo_proveedor" ∉ t.cols ∨ "precio_venta" ∉ t.cols) → k.margen = none) ∧
        ("total" ∉ t.cols → k.ticket = none) ∧
        (("iva" ∉ t.cols ∨ "precio_venta" ∉ t.cols) → k.ivaPct = none) ∧
        ("total" ∈ t.cols → k.ticket ≠ none)) := by
  refine ⟨rfl, ?_, ?_⟩
  · intro t hE
    show kpisTable t = none
    unfold kpisTable
    rw [if_pos hE]
  · intro t hE
    have hne : ¬ isEmptyN t = true := by rw [hE]; simp
    have hnone : ∀ c, c ∉ t.cols → dfGet t c = none := by
      intro c hc
      unfold dfGet
      rw [(idxOf?_eq_none_iff c t.cols).mpr hc]
      rfl
    refine ⟨_, by show kpisTable t = _; unfold kpisTable; rw [if_neg hne],
      ?_, ?_, ?_, ?_⟩
    · rintro (hc | hc)
      · show (match dfGet t "precio_venta", dfGet t "costo_proveedor" with
          | some p, some c => some (List.zipWith cellSub p c)
          | _, _ => none).map meanSkipNa = none
        rw [hnone _ hc]
        cases dfGet t "precio_venta" <;> rfl
      · show (match dfGet t "precio_venta", dfGet t "costo_proveedor" with
          | some p, some c => some (List.zipWith cellSub p c)
          | _, _ => none).map meanSkipNa = none
        rw [hnone _ hc]
        cases dfGet t "costo_proveedor" <;> rfl
    · intro hc
      show (dfGet t "total").map meanSkipNa = none
      rw [hnone _ hc]
      rfl
    · rintro (hc | hc)
      · show (match dfGet t "iva", dfGet t "precio_venta" with
          | some a, some p =>
              some (efMul100 (efMean ((List.zipWith cellDivEF a p).map replaceNan0)))
          | _, _ => none) = none
        rw [hnone _ hc]
      · show (match dfGet t "iva", dfGet t "precio_venta" with
          | some a, some p =>
              some (efMul100 (efMean ((List.zipWith cellDivEF a p).map replaceNan0)))
          | _, _ => none) = none
        rw [hnone _ hc]
        cases dfGet t "iva" <;> rfl
    · intro hc
      cases hidx : idxOf? "total" t.cols with
      | none => exact absurd hc ((idxOf?_eq_none_iff _ _).mp hidx)
      | some i =>
          have hsome : dfGet t "total" = some (t.rows.map (fun r => getCell r i)) := by
            unfold dfGet
            rw [hidx]
            rfl
          show (dfGet t "total").map meanSkipNa ≠ none
          rw [hsome]
          simp

/-- C9 (witness): at a one-column table holding only `total`,
`margen_promedio` is `None` while `ticket_promedio` is present. -/

theorem c9_kpis_absent_witness :
    (kpis (some ⟨["total"], [[Cell.num 3]]⟩)).map KpisR.margen = some none ∧
    (kpis (some ⟨["total"], [[Cell.num 3]]⟩)).map KpisR.ticket ≠ some none := by
  obtain ⟨k, hk, hmar, htick, hiva, hpos⟩ :=
    c9_kpis_absent.2.2 ⟨["total"], [[Cell.num 3]]⟩ (by decide)
  constructor
  · rw [hk]
    show some (KpisR.margen k) = some none
    rw [hmar (Or.inl (by decide))]
  · rw [hk]
    show some (KpisR.ticket k) ≠ some none
    intro habs
    exact hpos (by decide) (Option.some.inj habs)

lemma getC_setC : ∀ (row : SRow) (c d : String) (v : SCell),
    getC (setC row c v) d = if d = c then v else getC row d := by
  intro row
  induction row with
  | nil =>
      intro c d v
      show getC [(c, v)] d = _
      by_cases h : d = c
      · subst h
        simp [getC]
      · have h2 : c ≠ d := fun he => h he.symm
        simp [getC, h, h2]
  | cons p ps ih =>
      intro c d v
      by_cases hpc : p.1 = c
      · show getC (if p.1 = c then (c, v) :: ps else p :: setC ps c v) d = _
        rw [if_pos hpc]
        by_cases hdc : d = c
        · subst hdc
          simp [getC]
        · have h2 : c ≠ d := fun he => hdc he.symm
          show (if c = d then v else getC ps d) = _
          rw [if_neg h2, if_neg hdc]
          show getC ps d = getC (p :: ps) d
          have hpd : p.1 ≠ d := by rw [hpc]; exact h2
          show getC ps d = if p.1 = d then p.2 else getC ps d
          rw [if_neg hpd]
      · show getC (if p.1 = c then (c, v) :: ps else p :: setC ps c v) d = _
        rw [if_neg hpc]
        show (if p.1 = d then p.2 else getC (setC ps c v) d) = _
        by_cases hpd : p.1 = d
        · rw [if_pos hpd]
          have hdc : d ≠ c := by
            intro he
            exact hpc (by rw [hpd, he])
          rw [if_neg hdc]
          show p.2 = if p.1 = d then p.2 else getC ps d
          rw [if_pos hpd]
        · rw [if_neg hpd, ih]
          by_cases hdc : d = c
          · rw [if_pos hdc, if_pos hdc]
          · rw [if_neg hdc, if_neg hdc]
            show getC ps d = if p.1 = d then p.2 else getC ps d
            rw [if_neg hpd]

lemma getC_newRowOf : ∀ (cols : List String) (r : InRow) (c : String), c ∈ cols →
    getC (newRowOf cols r) c = some ((inGet r c).getD "") := by
  intro cols
  induction cols with
  | nil => simp
  | cons x xs ih =>
      intro r c hc
      show getC ((x, some ((inGet r x).getD "")) :: newRowOf xs r) c = _
      by_cases hx : x = c
      · subst hx
        show (if x = x then some ((inGet r x).getD "") else _) = _
        rw [if_pos rfl]
      · show (if x = c then _ else getC (newRowOf xs r) c) = _
        rw [if_neg hx]
        have hcxs : c ∈ xs := by
          rcases List.mem_cons.mp hc with h | h
          · exact absurd h.symm hx
          · exact h
        exact ih r c hcxs

lemma inGet_cons (kv : String × String) (rest : InRow) (c : String) :
    inGet (kv :: rest) c =
      match inGet rest c with
      | some v => some v
      | none => if kv.1 = c then some kv.2 else none := rfl

lemma getC_updRow : ∀ (r : InRow) (cols : List String) (row : SRow) (c : String),
    getC (updRow cols row r) c =
      match inGet r c with
      | some v => if cols.contains c then some v else getC row c
      | none => getC row c := by
  intro r
  induction r with
  | nil => intro cols row c; rfl
  | cons kv rest ih =>
      intro cols row c
      show getC (updRow cols
        (if cols.contains kv.1 then setC row kv.1 (some kv.2) else row) rest) c = _
      rw [ih, inGet_cons]
      cases hrest : inGet rest c with
      | some v =>
          show (if cols.contains c then some v
            else getC (if cols.contains kv.1 then setC row kv.1 (some kv.2) else row) c) =
            (if cols.contains c then some v else getC row c)
          by_cases hcc : cols.contains c = true
          · rw [if_pos hcc, if_pos hcc]
          · rw [if_neg hcc, if_neg hcc]
            by_cases hk : cols.contains kv.1 = true
            · rw [if_pos hk, getC_setC]
              have hne : c ≠ kv.1 := by
                intro he
                rw [he] at hcc
                exact hcc hk
              rw [if_neg hne]
            · rw [if_neg hk]
      | none =>
          by_cases hk1 : kv.1 = c
          · rw [if_pos hk1]
            show getC (if cols.contains kv.1 then setC row kv.1 (some kv.2) else row) c =
              (if cols.contains c then some kv.2 else getC row c)
            subst hk1
            by_cases hk : cols.contains kv.1 = true
            · rw [if_pos hk, if_pos hk, getC_setC, if_pos rfl]
            · rw [if_neg hk, if_neg hk]
          · rw [if_neg hk1]
            show getC (if cols.contains kv.1 then setC row kv.1 (some kv.2) else row) c =
              getC row c
            by_cases hk : cols.contains kv.1 = true
            · rw [if_pos hk, getC_setC]
              have hne : c ≠ kv.1 := fun he => hk1 he.symm
              rw [if_neg hne]
            · rw [if_neg hk]

lemma facturasRead_cols (t : STable) : (facturasRead t).cols = baseCols := rfl

lemma invalidRow_iff (r : SRow) : invalidRow r = true ↔
    (pyStrip (strOfCell (getC r "CONCEPTO")) ≠ "" ∧
      ∃ c ∈ REQUIRED_COLS, getC r c = none) := by
  unfold invalidRow
  simp [List.any_eq_true, Option.isNone_iff_eq_none]

/-- C5: `validate_facturas` returns `(True, df)` on an empty table; it
raises a schema error exactly when some required column is entirely absent;
otherwise it returns the subset of rows whose stringified, trimmed
`CONCEPTO` is non-empty and that have a `NaN` required field, with the
Boolean true exactly when that subset is empty; and a row whose `CONCEPTO`
is the empty string is never flagged. -/

theorem c5_validate (t : STable) :
    (isEmptyS t = true → validateFacturas t = .ok (true, t)) ∧
    (isEmptyS t = false →
      ((∃ c ∈ REQUIRED_COLS, c ∉ t.cols) ↔
        validateFacturas t =
          .error (REQUIRED_COLS.filter (fun c => !(t.cols.contains c))))) ∧
    (isEmptyS t = false → (∀ c ∈ REQUIRED_COLS, c ∈ t.cols) →
      validateFacturas t = .ok ((t.rows.filter invalidRow).isEmpty,
        ⟨t.cols, t.rows.filter invalidRow⟩) ∧
      (∀ r, r ∈ t.rows.filter invalidRow ↔ (r ∈ t.rows ∧
        pyStrip (strOfCell (getC r "CONCEPTO")) ≠ "" ∧
        ∃ c ∈ REQUIRED_COLS, getC r c = none))) ∧
    (∀ r : SRow, getC r "CONCEPTO" = some "" → invalidRow r = false) := by
  refine ⟨?_, ?_, ?_, ?_⟩
  · intro h
    unfold validateFacturas
    rw [if_pos h]
  · intro hE
    have hne : ¬ isEmptyS t = true := by rw [hE]; simp
    constructor
    · rintro ⟨c, hc, hnc⟩
      have hmem : c ∈ REQUIRED_COLS.filter (fun c => !(t.cols.contains c)) := by
        rw [List.mem_filter]
        exact ⟨hc, by rw [contains_false_of_not_mem t.cols c hnc]; rfl⟩
      have hmiss : (REQUIRED_COLS.filter (fun c => !(t.cols.contains c))).isEmpty = false := by
        cases hf : REQUIRED_COLS.filter (fun c => !(t.cols.contains c)) with
        | nil => rw [hf] at hmem; cases hmem
        | cons a l => rfl
      unfold validateFacturas
      rw [if_neg hne, if_neg (by rw [hmiss]; simp)]
    · intro hval
      by_cases hmiss : (REQUIRED_COLS.filter (fun c => !(t.cols.contains c))).isEmpty = true
      · unfold validateFacturas at hval
        rw [if_neg hne, if_pos hmiss] at hval
        cases hval
      · have hmiss2 : (REQUIRED_COLS.filter (fun c => !(t.cols.contains c))).isEmpty = false := by
          revert hmiss
          cases (REQUIRED_COLS.filter (fun c => !(t.cols.contains c))).isEmpty <;> simp
        cases hf : REQUIRED_COLS.filter (fun c => !(t.cols.contains c)) with
        | nil => rw [hf] at hmiss2; cases hmiss2
        | cons a l =>
            have hmem : a ∈ REQUIRED_COLS.filter (fun c => !(t.cols.contains c)) := by
              rw [hf]
              exact List.mem_cons_self a l
            rw [List.mem_filter] at hmem
            refine ⟨a, hmem.1, ?_⟩
            intro hcontra
            rw [contains_true_of_mem t.cols a hcontra] at hmem
            simp at hmem
  · intro hE hall
    have hne : ¬ isEmptyS t = true := by rw [hE]; simp
    have hmiss : (REQUIRED_COLS.filter (fun c => !(t.cols.contains c))).isEmpty = true := by
      have hnil : REQUIRED_COLS.filter (fun c => !(t.cols.contains c)) = [] := by
        rw [List.filter_eq_nil_iff]
        intro c hc
        rw [contains_true_of_mem t.cols c (hall c hc)]
        simp
      rw [hnil]
      rfl
    constructor
    · unfold validateFacturas
      rw [if_neg hne, if_pos hmiss]
    · intro r
      rw [List.mem_filter, invalidRow_iff]
  · intro r h
    unfold invalidRow
    rw [h]
    have h2 : (pyStrip (strOfCell (some "")) != "") = false := by decide
    rw [h2]
    exact Bool.false_and _

/-- C10: in `validate_facturas`, a row whose `CONCEPTO` cell is `NaN`
stringifies to the non-empty text "nan", so whenever another (or the same)
required field is also `NaN` the row is flagged invalid. -/

theorem c10_validate_null_concepto (t : STable) (r : SRow)
    (hE : isEmptyS t = false) (hcols : ∀ c ∈ REQUIRED_COLS, c ∈ t.cols)
    (hr : r ∈ t.rows) (hconc : getC r "CONCEPTO" = none)
    (hmiss : ∃ c ∈ REQUIRED_COLS, getC r c = none) :
    strOfCell (getC r "CONCEPTO") = "nan" ∧
    pyStrip (strOfCell (getC r "CONCEPTO")) ≠ "" ∧
    validateFacturas t = .ok (false, ⟨t.cols, t.rows.filter invalidRow⟩) ∧
    r ∈ t.rows.filter invalidRow := by
  have hnan : strOfCell (getC r "CONCEPTO") = "nan" := by rw [hconc]; rfl
  have hnz : pyStrip (strOfCell (getC r "CONCEPTO")) ≠ "" := by
    rw [hnan]
    decide
  have hinv : invalidRow r = true := (invalidRow_iff r).mpr ⟨hnz, hmiss⟩
  have hmemf : r ∈ t.rows.filter invalidRow := List.mem_filter.mpr ⟨hr, hinv⟩
  refine ⟨hnan, hnz, ?_, hmemf⟩
  have hne : ¬ isEmptyS t = true := by rw [hE]; simp
  have hmissing : (REQUIRED_COLS.filter (fun c => !(t.cols.contains c))).isEmpty = true := by
    have hnil : REQUIRED_COLS.filter (fun c => !(t.cols.contains c)) = [] := by
      rw [List.filter_eq_nil_iff]
      intro c hc
      rw [contains_true_of_mem t.cols c (hcols c hc)]
      simp
    rw [hnil]
    rfl
  unfold validateFacturas
  rw [if_neg hne, if_pos hmissing]
  have hbool : (t.rows.filter invalidRow).isEmpty = false := by
    cases hfe : t.rows.filter invalidRow with
    | nil => rw [hfe] at hmemf; cases hmemf
    | cons a l => rfl
  rw [hbool]

/-- C5 (witness): the trigger example from the specification — the row with
`CONCEPTO = "servicio"` and missing `PACIENTE` is flagged, the row with
`CONCEPTO = ""` is not. -/

theorem c5_validate_witness :
    validateFacturas c5tW = Except.ok (false, ⟨REQUIRED_COLS, [c5row1]⟩) ∧
    invalidRow c5row2 = false := by
  constructor
  · have h := ((c5_validate c5tW).2.2.1 (by decide) (by decide)).1
    rw [h]
    decide
  · exact (c5_validate c5tW).2.2.2 c5row2 (by decide)

/-- C10 (witness): the null-`CONCEPTO` flagging applied at a concrete
table. -/

theorem c10_validate_null_concepto_witness :
    strOfCell (getC c10row "CONCEPTO") = "nan" ∧
    validateFacturas c10tW = Except.ok (false, ⟨REQUIRED_COLS, [c10row]⟩) := by
  obtain ⟨hnan, hnz, hval, hmem⟩ :=
    c10_validate_null_concepto c10tW c10row (by decide) (by decide) (by decide)
      (by decide) ⟨"PACIENTE", by decide, by decide⟩
  refine ⟨hnan, ?_⟩
  rw [hval]
  decide

/-- C3: one upsert step skips rows with a blank/absent stripped `ID`; an
`ID` found in the index overwrites, in the matched row, exactly the input
fields that are table columns (absent fields untouched); an unknown `ID`
appends a row whose every table column takes the input value or defaults to
the empty string, and registers the new position; and when the resulting
table validates, the whole table is written back and returned. -/

theorem c3_upsert :
    (∀ (df : STable) (idx : List (String × Nat)) (r : InRow),
      ridOf r = "" → applyRow (df, idx) r = (df, idx)) ∧
    (∀ (df : STable) (idx : List (String × Nat)) (r : InRow) (i : Nat),
      ridOf r ≠ "" → idxGet idx (ridOf r) = some i →
      applyRow (df, idx) r =
        (⟨df.cols, df.rows.set i (updRow df.cols (df.rows.getD i []) r)⟩, idx)) ∧
    (∀ (cols : List String) (row : SRow) (r : InRow) (c : String),
      getC (updRow cols row r) c =
        match inGet r c with
        | some v => if cols.contains c then some v else getC row c
        | none => getC row c) ∧
    (∀ (df : STable) (idx : List (String × Nat)) (r : InRow),
      ridOf r ≠ "" → idxGet idx (ridOf r) = none →
      applyRow (df, idx) r =
        (⟨df.cols, df.rows ++ [newRowOf df.cols r]⟩,
          idxSet idx (ridOf r) df.rows.length)) ∧
    (∀ (cols : List String) (r : InRow) (c : String), c ∈ cols →
      getC (newRowOf cols r) c = some ((inGet r c).getD "")) ∧
    (∀ (s : Sheets) (rows : List InRow) (inv : STable),
      validateFacturas (rows.foldl applyRow (upsertInit s)).1 = .ok (true, inv) →
      facturasUpsert s rows =
        (⟨gsWrite (rows.foldl applyRow (upsertInit s)).1, s.cont⟩,
          .ok (rows.foldl applyRow (upsertInit s)).1)) := by
  refine ⟨?_, ?_, ?_, ?_, ?_, ?_⟩
  · intro df idx r h
    unfold applyRow
    rw [if_pos h]
  · intro df idx r i h1 h2
    unfold applyRow
    rw [if_neg h1]
    show (match idxGet idx (ridOf r) with
      | some i =>
          (STable.mk df.cols (df.rows.set i (updRow df.cols (df.rows.getD i []) r)), idx)
      | none =>
          (STable.mk df.cols (df.rows ++ [newRowOf df.cols r]),
            idxSet idx (ridOf r) df.rows.length)) = _
    rw [h2]
  · intro cols row r c
    exact getC_updRow r cols row c
  · intro df idx r h1 h2
    unfold applyRow
    rw [if_neg h1]
    show (match idxGet idx (ridOf r) with
      | some i =>
          (STable.mk df.cols (df.rows.set i (updRow df.cols (df.rows.getD i []) r)), idx)
      | none =>
          (STable.mk df.cols (df.rows ++ [newRowOf df.cols r]),
            idxSet idx (ridOf r) df.rows.length)) = _
    rw [h2]
  · intro cols r c hc
    exact getC_newRowOf cols r c hc
  · intro s rows inv h
    unfold facturasUpsert
    rw [h]
    rfl

/-- C6: if the table resulting from applying the input rows fails
validation, `facturas_upsert` raises carrying the invalid-row subset and
performs no write — both sheets are left exactly as they were. -/

theorem c6_upsert_validation_gate (s : Sheets) (rows : List InRow) (inv : STable)
    (h : validateFacturas (rows.foldl applyRow (upsertInit s)).1 = .ok (false, inv)) :
    facturasUpsert s rows = (s, .error (.invalid inv)) := by
  unfold facturasUpsert
  rw [h]
  rfl

/-- C3 (witness): upserting `{ID:"1", ESTATUS:"Pagada"}` against the stored
row for ID "1" updates that row in place and changes only `ESTATUS`. -/

theorem c3_upsert_witness :
    applyRow (⟨baseCols, [c3old]⟩, [("1", 0)]) c3in =
      (⟨baseCols, [updRow baseCols c3old c3in]⟩, [("1", 0)]) ∧
    getC (updRow baseCols c3old c3in) "ESTATUS" = some "Pagada" ∧
    getC (updRow baseCols c3old c3in) "PACIENTE" = getC c3old "PACIENTE" := by
  refine ⟨?_, ?_, ?_⟩
  · have h := c3_upsert.2.1 ⟨baseCols, [c3old]⟩ [("1", 0)] c3in 0 (by decide) (by decide)
    rw [h]
    decide
  · have h := c3_upsert.2.2.1 baseCols c3old c3in "ESTATUS"
    rw [h]
    decide
  · have h := c3_upsert.2.2.1 baseCols c3old c3in "PACIENTE"
    rw [h]
    decide

/-- C6 (witness): the validation gate applied at a concrete state — the
upsert fails carrying the invalid row and the sheets are unchanged. -/

theorem c6_upsert_validation_gate_witness :
    facturasUpsert c6s [] = (c6s, Except.error (UpsertErr.invalid ⟨baseCols, [c6row]⟩)) :=
  c6_upsert_validation_gate c6s [] ⟨baseCols, [c6row]⟩ (by decide)

lemma isEmptyS_def (t : STable) : isEmptyS t = (t.rows.isEmpty || t.cols.isEmpty) := rfl

lemma exportFilter_cols (df : STable) : (exportFilter df).cols = df.cols := rfl

lemma exportFilter_rows (df : STable) : (exportFilter df).rows =
    df.rows.filter (fun r => (getC r "ESTATUS").getD "" == "Por enviar") := rfl

/-- C1 (amended): `export_por_enviar_to_contador` returns exactly the rows
of the read invoice table whose `ESTATUS` (`NaN` as `""`) equals
"Por enviar", with every exported row unchanged — in particular `FOLIO` is
left as stored, because the reset line `out["FOLIO"] = out.get("FOLIO","")`
is a no-op when the `FOLIO` column exists, which it always does after
`facturas_read`.  If the subset is empty nothing is written; otherwise the
accountant sheet is overwritten with exactly this subset and the invoice
sheet is untouched. -/

theorem c1_export (s : Sheets) :
    (exportPorEnviar s).2.rows = (facturasRead s.fact).rows.filter
      (fun r => (getC r "ESTATUS").getD "" == "Por enviar") ∧
    (exportPorEnviar s).2.cols = baseCols ∧
    (exportPorEnviar s).1 =
      (if ((facturasRead s.fact).rows.filter
          (fun r => (getC r "ESTATUS").getD "" == "Por enviar")).isEmpty then s
       else ⟨s.fact, gsWrite (exportFilter (facturasRead s.fact))⟩) := by
  have hfol : (baseCols.contains "FOLIO") = true := by decide
  have hbase : (baseCols.isEmpty) = false := by decide
  have hcols : (exportFilter (facturasRead s.fact)).cols = baseCols := by
    rw [exportFilter_cols, facturasRead_cols]
  have hrows : (exportFilter (facturasRead s.fact)).rows =
      (facturasRead s.fact).rows.filter
        (fun r => (getC r "ESTATUS").getD "" == "Por enviar") :=
    exportFilter_rows (facturasRead s.fact)
  have hff : exportFolioFix (exportFilter (facturasRead s.fact)) =
      exportFilter (facturasRead s.fact) := by
    unfold exportFolioFix
    rw [hcols, hfol]
    simp
  have hie : isEmptyS (exportFilter (facturasRead s.fact)) =
      ((facturasRead s.fact).rows.filter
        (fun r => (getC r "ESTATUS").getD "" == "Por enviar")).isEmpty := by
    rw [isEmptyS_def, hcols, hrows, hbase]
    simp
  by_cases hem : ((facturasRead s.fact).rows.filter
      (fun r => (getC r "ESTATUS").getD "" == "Por enviar")).isEmpty = true
  · have hcond : isEmptyS (exportFilter (facturasRead s.fact)) = true := by
      rw [hie, hem]
    refine ⟨?_, ?_, ?_⟩ <;> unfold exportPorEnviar <;> rw [if_pos hcond]
    · exact hrows
    · exact hcols
    · rw [if_pos hem]
  · have hem2 : ((facturasRead s.fact).rows.filter
        (fun r => (getC r "ESTATUS").getD "" == "Por enviar")).isEmpty = false := by
      revert hem
      cases ((facturasRead s.fact).rows.filter
        (fun r => (getC r "ESTATUS").getD "" == "Por enviar")).isEmpty <;> simp
    have hcond : ¬ isEmptyS (exportFilter (facturasRead s.fact)) = true := by
      rw [hie, hem2]
      simp
    refine ⟨?_, ?_, ?_⟩ <;> unfold exportPorEnviar <;> rw [if_neg hcond, hff]
    · exact hrows
    · exact hcols
    · rw [if_neg (by rw [hem2]; simp)]

/-- C1 (counterexample): the exported row keeps its stored `FOLIO` "F123";
it is not reset to the empty string as the claim states. -/

theorem c1_counterexample :
    (exportPorEnviar c1s).2.rows.map (fun r => getC r "FOLIO") = [some "F123"] ∧
    (some "F123" : Option String) ≠ some "" := by
  exact ⟨by decide, by decide⟩

lemma syncUpd_skip (cont : STable) (r : SRow)
    (hid : ¬ (getC r "ID").isSome = true) : syncUpd cont r = r := by
  unfold syncUpd
  rw [if_neg hid]

lemma syncUpd_nomatch (cont : STable) (r : SRow)
    (hid : (getC r "ID").isSome = true)
    (hfil : cont.rows.filter
      (fun cr => getC cr "ID" == some (strOfCell (getC r "ID"))) = []) :
    syncUpd cont r = r := by
  unfold syncUpd
  rw [if_pos hid, hfil]

lemma syncUpd_single (cont : STable) (r m : SRow)
    (hid : (getC r "ID").isSome = true)
    (hfil : cont.rows.filter
      (fun cr => getC cr "ID" == some (strOfCell (getC r "ID"))) = [m]) :
    syncUpd cont r =
      (if (getC m "ESTATUS").isSome && (pyStrip (strOfCell (getC m "ESTATUS")) != "") then
        setC (if (getC m "FOLIO").isSome &&
            (pyStrip (strOfCell (getC m "FOLIO")) != "") then
          setC r "FOLIO" (getC m "FOLIO") else r) "ESTATUS" (getC m "ESTATUS")
      else (if (getC m "FOLIO").isSome &&
          (pyStrip (strOfCell (getC m "FOLIO")) != "") then
        setC r "FOLIO" (getC m "FOLIO") else r)) := by
  unfold syncUpd
  rw [if_pos hid, hfil]

lemma syncUpd_dup (cont : STable) (r m m2 : SRow) (rest : List SRow)
    (hid : (getC r "ID").isSome = true)
    (hfil : cont.rows.filter
      (fun cr => getC cr "ID" == some (strOfCell (getC r "ID"))) = m :: m2 :: rest) :
    syncUpd cont r = setC (setC r "FOLIO" (some "FOLIO")) "ESTATUS" (some "ESTATUS") := by
  unfold syncUpd
  rw [if_pos hid, hfil]

/-- C4 (amended): when both sheets are nonempty and the accountant sheet has
ID/FOLIO/ESTATUS, `sync_folios_from_contador` maps `syncUpd` over the
invoice rows and writes the result.  For an invoice row whose `ID` matches
exactly one accountant row, `FOLIO`/`ESTATUS` are overwritten only when the
looked-up value is non-`NaN` and non-blank after strip.  A stored non-blank
`FOLIO`/`ESTATUS` is never replaced by a blank value (this holds in every
case, including the degenerate duplicate-`ID` case, where the pandas tuple
unpacking writes the literal column-name strings instead). -/

theorem c4_sync (s : Sheets) :
    (isEmptyS s.fact = false → isEmptyS s.cont = false →
      (["ID","FOLIO","ESTATUS"].all (fun c => s.cont.cols.contains c)) = true →
      syncFolios s = (⟨gsWrite ⟨s.fact.cols, s.fact.rows.map (syncUpd s.cont)⟩, s.cont⟩,
        .ok ⟨s.fact.cols, s.fact.rows.map (syncUpd s.cont)⟩)) ∧
    (∀ (r m : SRow),
      s.cont.rows.filter (fun cr => getC cr "ID" == some (strOfCell (getC r "ID"))) = [m] →
      (getC r "ID").isSome = true →
      getC (syncUpd s.cont r) "FOLIO" =
        (if (getC m "FOLIO").isSome && (pyStrip (strOfCell (getC m "FOLIO")) != "")
         then getC m "FOLIO" else getC r "FOLIO") ∧
      getC (syncUpd s.cont r) "ESTATUS" =
        (if (getC m "ESTATUS").isSome && (pyStrip (strOfCell (getC m "ESTATUS")) != "")
         then getC m "ESTATUS" else getC r "ESTATUS")) ∧
    (∀ r : SRow, (∃ v, getC r "FOLIO" = some v ∧ pyStrip v ≠ "") →
      ∃ w, getC (syncUpd s.cont r) "FOLIO" = some w ∧ pyStrip w ≠ "") ∧
    (∀ r : SRow, (∃ v, getC r "ESTATUS" = some v ∧ pyStrip v ≠ "") →
      ∃ w, getC (syncUpd s.cont r) "ESTATUS" = some w ∧ pyStrip w ≠ "") := by
  have hFE : ("ESTATUS" : String) ≠ "FOLIO" := by decide
  have hEF : ("FOLIO" : String) ≠ "ESTATUS" := by decide
  refine ⟨?_, ?_, ?_, ?_⟩
  · intro h1 h2 h3
    unfold syncFolios
    rw [if_neg (by rw [h1, h2]; simp), if_neg (by rw [h3]; simp)]
  · intro r m hfil hid
    rw [syncUpd_single s.cont r m hid hfil]
    by_cases hes : ((getC m "ESTATUS").isSome &&
        (pyStrip (strOfCell (getC m "ESTATUS")) != "")) = true
    · rw [if_pos hes, if_pos hes]
      by_cases hf : ((getC m "FOLIO").isSome &&
          (pyStrip (strOfCell (getC m "FOLIO")) != "")) = true
      · rw [if_pos hf, if_pos hf]
        constructor
        · rw [getC_setC, if_neg hEF, getC_setC, if_pos rfl]
        · rw [getC_setC, if_pos rfl]
      · rw [if_neg hf, if_neg hf]
        constructor
        · rw [getC_setC, if_neg hEF]
        · rw [getC_setC, if_pos rfl]
    · rw [if_neg hes, if_neg hes]
      by_cases hf : ((getC m "FOLIO").isSome &&
          (pyStrip (strOfCell (getC m "FOLIO")) != "")) = true
      · rw [if_pos hf, if_pos hf]
        constructor
        · rw [getC_setC, if_pos rfl]
        · rw [getC_setC, if_neg hFE]
      · rw [if_neg hf, if_neg hf]
        exact ⟨rfl, rfl⟩
  · intro r hv
    obtain ⟨v, hv1, hv2⟩ := hv
    by_cases hid : (getC r "ID").isSome = true
    · cases hfil : s.cont.rows.filter
          (fun cr => getC cr "ID" == some (strOfCell (getC r "ID"))) with
      | nil =>
          rw [syncUpd_nomatch s.cont r hid hfil]
          exact ⟨v, hv1, hv2⟩
      | cons m rest =>
          cases rest with
          | nil =>
              rw [syncUpd_single s.cont r m hid hfil]
              by_cases hes : ((getC m "ESTATUS").isSome &&
                  (pyStrip (strOfCell (getC m "ESTATUS")) != "")) = true
              · rw [if_pos hes]
                by_cases hf : ((getC m "FOLIO").isSome &&
                    (pyStrip (strOfCell (getC m "FOLIO")) != "")) = true
                · rw [if_pos hf]
                  obtain ⟨hf1, hf2⟩ := Bool.and_eq_true_iff.mp hf
                  obtain ⟨w, hw⟩ := Option.isSome_iff_exists.mp hf1
                  refine ⟨w, ?_, ?_⟩
                  · rw [getC_setC, if_neg hEF, getC_setC, if_pos rfl, hw]
                  · have hne : pyStrip (strOfCell (getC m "FOLIO")) ≠ "" := by
                      simpa using hf2
                    rw [hw] at hne
                    exact hne
                · rw [if_neg hf]
                  exact ⟨v, by rw [getC_setC, if_neg hEF]; exact hv1, hv2⟩
              · rw [if_neg hes]
                by_cases hf : ((getC m "FOLIO").isSome &&
                    (pyStrip (strOfCell (getC m "FOLIO")) != "")) = true
                · rw [if_pos hf]
                  obtain ⟨hf1, hf2⟩ := Bool.and_eq_true_iff.mp hf
                  obtain ⟨w, hw⟩ := Option.isSome_iff_exists.mp hf1
                  refine ⟨w, by rw [getC_setC, if_pos rfl, hw], ?_⟩
                  have hne : pyStrip (strOfCell (getC m "FOLIO")) ≠ "" := by
                    simpa using hf2
                  rw [hw] at hne
                  exact hne
                · rw [if_neg hf]
                  exact ⟨v, hv1, hv2⟩
          | cons m2 rest2 =>
              rw [syncUpd_dup s.cont r m m2 rest2 hid hfil]
              refine ⟨"FOLIO", ?_, by decide⟩
              rw [getC_setC, if_neg hEF, getC_setC, if_pos rfl]
    · rw [syncUpd_skip s.cont r hid]
      exact ⟨v, hv1, hv2⟩
  · intro r hv
    obtain ⟨v, hv1, hv2⟩ := hv
    by_cases hid : (getC r "ID").isSome = true
    · cases hfil : s.cont.rows.filter
          (fun cr => getC cr "ID" == some (strOfCell (getC r "ID"))) with
      | nil =>
          rw [syncUpd_nomatch s.cont r hid hfil]
          exact ⟨v, hv1, hv2⟩
      | cons m rest =>
          cases rest with
          | nil =>
              rw [syncUpd_single s.cont r m hid hfil]
              by_cases hes : ((getC m "ESTATUS").isSome &&
                  (pyStrip (strOfCell (getC m "ESTATUS")) != "")) = true
              · rw [if_pos hes]
                obtain ⟨he1, he2⟩ := Bool.and_eq_true_iff.mp hes
                obtain ⟨w, hw⟩ := Option.isSome_iff_exists.mp he1
                refine ⟨w, by rw [getC_setC, if_pos rfl, hw], ?_⟩
                have hne : pyStrip (strOfCell (getC m "ESTATUS")) ≠ "" := by
                  simpa using he2
                rw [hw] at hne
                exact hne
              · rw [if_neg hes]
                by_cases hf : ((getC m "FOLIO").isSome &&
                    (pyStrip (strOfCell (getC m "FOLIO")) != "")) = true
                · rw [if_pos hf]
                  exact ⟨v, by rw [getC_setC, if_neg hFE]; exact hv1, hv2⟩
                · rw [if_neg hf]
                  exact ⟨v, hv1, hv2⟩
          | cons m2 rest2 =>
              rw [syncUpd_dup s.cont r m m2 rest2 hid hfil]
              refine ⟨"ESTATUS", ?_, by decide⟩
              rw [getC_setC, if_pos rfl]
    · rw [syncUpd_skip s.cont r hid]
      exact ⟨v, hv1, hv2⟩

/-- Counterexample to C4 as stated: with a duplicated ID in the accountant
sheet, every looked-up FOLIO is blank after strip, yet the stored FOLIO "F1"
is overwritten (pandas tuple-unpacking of a two-row `.loc` result binds the
literal column labels, so the row's FOLIO becomes the string "FOLIO"). -/

theorem c4_counterexample :
    getC c4r "FOLIO" = some "F1" ∧
    (c4cont.rows.all (fun m => pyStrip (strOfCell (getC m "FOLIO")) == "")) = true ∧
    getC (syncUpd c4cont c4r) "FOLIO" = some "FOLIO" := by
  decide

/-- Witness for C4: on the concrete sheets, the matched row's non-blank
FOLIO "F9" and ESTATUS "Pagada" overwrite the stored values. -/

theorem c4_sync_witness :
    getC (syncUpd c4sW.cont c4rW) "FOLIO" = some "F9" ∧
    getC (syncUpd c4sW.cont c4rW) "ESTATUS" = some "Pagada" := by
  obtain ⟨h1, h2⟩ := (c4_sync c4sW).2.1 c4rW c4mW (by decide) (by decide)
  constructor
  · rw [h1]; decide
  · rw [h2]; decide
